import Mathlib

/-!
# mos-tls-tunnel: the multiplexed-session layer

A shallow embedding of `internal/core/cmux.go` (guarded sessions and
notifying streams) and of the session pool and idle reaper of `local.go`.

Go values are embedded as follows.

* A Go `error` is an `Option Error`; `none` is `nil`.
* A Go result pair `(*T, error)` of which exactly one component is non-nil is
  an `Except Error T`.
* A method with a pointer receiver becomes a function that takes the state of
  the receiver and returns the result together with the new state.
* `sync.Mutex`: every method body that runs between `Lock` and the deferred
  `Unlock` is one function application, so it is atomic by construction.
* Go `int` values (stream counts, the stream limit) are `Int`; the only
  operations on them here are comparisons.
* `time.Time` and `time.Duration` are `Int` nanoseconds.
-/

namespace MosTlsTunnel

/-! ## The multiplexed transport (github.com/xtaci/smux) at its boundary -/

/-- Error values that cross this layer. -/
inductive Error where
  /-- The `ErrTooManyStreams` value of package core. -/
  | ErrTooManyStreams
  /-- The `io.ErrClosedPipe` value the transport reports on a closed session or stream. -/
  | ErrClosedPipe
  /-- Any other failure reported by the transport or by the dialer. -/
  | other (code : Nat)
  deriving DecidableEq, Repr

/-- Handle of one logical channel (`*smux.Stream`): the session that carries it
and its stream id on that session. -/
structure Stream where
  sess : Nat
  id : Nat
  deriving DecidableEq, Repr

/-- State-changing calls a transport session receives. -/
inductive Call where
  | OpenStream
  | Close
  | StreamClose (id : Nat)
  deriving DecidableEq, Repr

/-- Modelled from the spec: the multiplexed transport session (`*smux.Session`),
which is a library outside this repository. The spec gives its boundary: the
current live-stream count, "open a new logical stream", "is this session
closed", "close this session". The live streams are kept as the list of their
ids. Three fields fix in advance what the network will answer: `openErr` is the
failure (if any) of the next `OpenStream`, `closeErr` the result of closing the
underlying connection, `finErr` the result of closing a stream. `calls` records
the state-changing calls received, oldest first. -/
structure Session where
  id : Nat
  closed : Bool
  streams : List Nat
  nextStreamID : Nat
  openErr : Option Error
  closeErr : Option Error
  finErr : Option Error
  calls : List Call
  deriving DecidableEq, Repr

namespace Session

/-- Modelled from the spec: `IsClosed()`, "is this session closed". -/
def IsClosed (s : Session) : Bool := s.closed

/-- Modelled from the spec: `NumStreams()`, the current live-stream count; a
closed session carries none. A pure read. -/
def NumStreams (s : Session) : Int :=
  if s.closed then 0 else (s.streams.length : Int)

/-- Modelled from the spec: `OpenStream()`, "open a new logical stream". A
closed session refuses; otherwise the network decides (`openErr`). A failure
yields no stream and adds none; a success adds exactly one live stream with a
fresh id. -/
def OpenStream (s : Session) : Except Error Stream × Session :=
  let s1 := { s with calls := s.calls ++ [Call.OpenStream] }
  if s.closed then (.error .ErrClosedPipe, s1)
  else
    match s.openErr with
    | some err => (.error err, s1)
    | none =>
      let sid := s.nextStreamID + 2
      (.ok { sess := s.id, id := sid },
        { s1 with nextStreamID := sid, streams := s.streams ++ [sid] })

/-- Modelled from the spec: `Close()`, "close this session". The first call
closes the session and returns the result of closing the connection; a later
call reports `ErrClosedPipe`. -/
def Close (s : Session) : Option Error × Session :=
  let s1 := { s with calls := s.calls ++ [Call.Close] }
  if s.closed then (some .ErrClosedPipe, s1)
  else (s.closeErr, { s1 with closed := true })

end Session

/-- Modelled from the spec: `(*smux.Stream).Close()`, the "close" of a stream
at the transport boundary, acting on the session that carries the stream. A
live stream is removed from its session; the session itself is not closed.
Closing a stream that is not live reports `ErrClosedPipe`. -/
def Stream.Close (st : Stream) (s : Session) : Option Error × Session :=
  let s1 := { s with calls := s.calls ++ [Call.StreamClose st.id] }
  if s.closed || !(s.streams.contains st.id) then (some .ErrClosedPipe, s1)
  else (s.finErr, { s1 with streams := s.streams.erase st.id })

/-! ## internal/core/cmux.go -/

/-- The `muxSession` struct: the mutex `mu` (see the header) and the embedded
`*smux.Session`. `idleChecks` is a ghost counter of the calls of
`tryCloseOnIdle` on this session; no code reads it. -/
structure muxSession where
  Session : Session
  idleChecks : Nat
  deriving DecidableEq, Repr

/-- The `muxStream` struct: the embedded `*smux.Stream` and the `onClose`
callback, a closure over the owning session and therefore a function of that
session's state. -/
structure muxStream where
  Stream : Stream
  onClose : muxSession → Option Error × muxSession

/-- The function `newMuxSession`. -/
def newMuxSession (s : Session) : muxSession :=
  { Session := s, idleChecks := 0 }

/-- The method `muxSession.tryCloseOnIdle`. -/
def muxSession.tryCloseOnIdle (s : muxSession) : Option Error × muxSession :=
  let s := { s with idleChecks := s.idleChecks + 1 }
  if s.Session.NumStreams = 0 then
    let r := s.Session.Close
    (r.1, { s with Session := r.2 })
  else
    (none, s)

/-- The method `muxSession.openStream`. -/
def muxSession.openStream (s : muxSession) (maxStreamLimit : Int) :
    Except Error muxStream × muxSession :=
  if s.Session.NumStreams ≥ maxStreamLimit then
    (.error .ErrTooManyStreams, s)
  else
    match s.Session.OpenStream with
    | (.error err, t) => (.error err, { s with Session := t })
    | (.ok stream, t) =>
      (.ok { Stream := stream, onClose := muxSession.tryCloseOnIdle }, { s with Session := t })

/-- The method `muxStream.Close`: the result of `s.Stream.Close()` is dropped,
then `s.onClose()` is returned. -/
def muxStream.Close (s : muxStream) (w : muxSession) : Option Error × muxSession :=
  let w1 := { w with Session := (s.Stream.Close w.Session).2 }
  s.onClose w1

/-! ## local.go -/

/-- The constant `muxCheckIdleInterval`: two seconds, in nanoseconds. -/
def muxCheckIdleInterval : Int := 1000000000 * 2

/-- The constant `muxSessIdleTimeout`: thirty seconds, in nanoseconds. -/
def muxSessIdleTimeout : Int := 1000000000 * 30

/-- What the network answers to one call of `dialNewSess`: `newRightConn`
fails, or `smux.Client` fails on the dialed connection, or the transport hands
back a new session. -/
inductive DialOutcome where
  | connErr (err : Error)
  | clientErr (err : Error)
  | ok (sess : Session)
  deriving DecidableEq, Repr

/-- The `smuxSessPool` struct. The keys of the `sync.Map` are kept as a list, in
the order in which `Range` visits them; a key is a session pointer, here the
session's `id` together with the state of the session it points to. `dials` is a
ghost counter of the calls of `dialNewSess`; no code reads it. -/
structure smuxSessPool where
  pool : List Session
  dials : Nat
  deriving DecidableEq, Repr

/-- The value `defaultSessPool`. -/
def defaultSessPool : smuxSessPool := { pool := [], dials := 0 }

/-- The `sync.Map` method `Delete`, on the key list: the entry of that key, if
any, goes. -/
def poolDelete (pool : List Session) (sess : Session) : List Session :=
  pool.filter (fun t => t.id != sess.id)

/-- The `sync.Map` method `Store`, on the key list: a key is present at most
once. -/
def poolStore (pool : List Session) (sess : Session) : List Session :=
  pool.filter (fun t => t.id != sess.id) ++ [sess]

/-- A call through a session pointer held in the map changes the session that
every holder of the pointer sees. -/
def poolUpdate (pool : List Session) (sess : Session) : List Session :=
  pool.map (fun t => if t.id = sess.id then sess else t)

/-- The method `smuxSessPool.dialNewSess`. The goroutine it starts is
`reaperLoop` below; it shares nothing with the pool but the session. -/
def smuxSessPool.dialNewSess (p : smuxSessPool) (d : DialOutcome) :
    Except Error Session × smuxSessPool :=
  let p := { p with dials := p.dials + 1 }
  match d with
  | .connErr err => (.error err, p)
  | .clientErr err => (.error err, p)
  | .ok sess => (.ok sess, { p with pool := poolStore p.pool sess })

/-- The variables the closure `try` of `getStream` captures: the local `stream`
and the map of the pool. -/
structure ScanState where
  stream : Option Stream
  pool : List Session
  deriving DecidableEq, Repr

/-- The closure `try` of `getStream`, called by `Range` on the key `sess`. The
boolean is its return value: `true` to go on, `false` to stop. A failed
`OpenStream` assigns the nil stream. -/
def getStream_try (muxMaxStream : Int) (sess : Session) (st : ScanState) : Bool × ScanState :=
  if sess.IsClosed then
    (true, { st with pool := poolDelete st.pool sess })
  else if sess.NumStreams < muxMaxStream then
    match sess.OpenStream with
    | (.error _, _) => (true, { stream := none, pool := poolDelete st.pool sess })
    | (.ok stream, sess1) => (false, { stream := some stream, pool := poolUpdate st.pool sess1 })
  else
    (true, st)

/-- The `sync.Map` method `Range`: calls `f` on the keys one after another and
stops when `f` returns false. -/
def Range (f : Session → ScanState → Bool × ScanState) : List Session → ScanState → ScanState
  | [], st => st
  | key :: keys, st =>
    match f key st with
    | (true, st1) => Range f keys st1
    | (false, st1) => st1

/-- The method `smuxSessPool.getStream`; `muxMaxStream` is the value of the flag
of that name and `d` the answer of the network should the call dial. -/
def smuxSessPool.getStream (p : smuxSessPool) (muxMaxStream : Int) (d : DialOutcome) :
    Except Error Stream × smuxSessPool :=
  let st := Range (getStream_try muxMaxStream) p.pool { stream := none, pool := p.pool }
  let p1 := { p with pool := st.pool }
  match st.stream with
  | none =>
    match p1.dialNewSess d with
    | (.error err, p2) => (.error err, p2)
    | (.ok sess, p2) =>
      let r := sess.OpenStream
      (r.1, { p2 with pool := poolUpdate p2.pool r.2 })
  | some stream => (.ok stream, p1)

/-- Closing a stream handed out by `getStream`: the value is a `*smux.Stream`,
so this is the transport's `Close`, on the session that carries the stream. -/
def smuxSessPool.closeStream (p : smuxSessPool) (st : Stream) : smuxSessPool :=
  { p with pool := p.pool.map (fun t => if t.id = st.sess then (st.Close t).2 else t) }

/-- State of the idle reaper goroutine of `dialNewSess`. -/
inductive Reaper where
  | running (lastBusy : Int)
  | exited
  deriving DecidableEq, Repr

/-- The body of `case now := <-ticker.C` in the reaper goroutine. -/
def reaperTick (lastBusy now : Int) (sess : Session) : Reaper × Session :=
  if sess.NumStreams > 0 then
    (.running now, sess)
  else if now - lastBusy > muxSessIdleTimeout then
    (.exited, sess.Close.2)
  else
    (.running lastBusy, sess)

/-- How a run of the reaper goroutine stands after some passes of its loop. -/
inductive ReaperRun where
  /-- Still in the loop, waiting for tick `next`. -/
  | waiting (next : Nat) (lastBusy : Int) (sess : Session)
  /-- Returned at the head of the loop before tick `next`: the session was closed already. -/
  | foundClosed (next : Nat) (sess : Session)
  /-- Closed the session at tick `at_` and returned. -/
  | closedAt (at_ : Nat) (sess : Session)
  deriving DecidableEq, Repr

/-- The loop of the reaper goroutine, for at most `fuel` passes, from tick
number `k`. `tick k` is the time the ticker delivers as its tick `k`; `env k` is
what the rest of the program does to the session while the goroutine waits for
tick `k`. -/
def reaperLoop (tick : Nat → Int) (env : Nat → Session → Session) :
    Nat → Nat → Int → Session → ReaperRun
  | 0, k, lastBusy, sess => .waiting k lastBusy sess
  | fuel + 1, k, lastBusy, sess =>
    if sess.IsClosed then .foundClosed k sess
    else
      match reaperTick lastBusy (tick k) (env k sess) with
      | (.running lastBusy1, sess1) => reaperLoop tick env fuel (k + 1) lastBusy1 sess1
      | (.exited, sess1) => .closedAt k sess1

/-! ## Runs: sequences of calls -/

/-- A session as `smux.Client` returns it: open, no stream yet, and a network
that lets every call succeed. -/
def freshSession (id : Nat) : Session :=
  { id := id, closed := false, streams := [], nextStreamID := 1,
    openErr := none, closeErr := none, finErr := none, calls := [] }

/-- One step of the life of a guarded session: a call of `openStream`, before
which the network has settled on the answer `openErr` it will give, or the
`Close` of a stream that `openStream` handed out. -/
inductive SessOp where
  | open_ (openErr : Option Error)
  | close (stream : Stream)
  deriving DecidableEq, Repr

/-- The session after one step, with the limit `maxStreamLimit` for every
`openStream`. -/
def sessStep (maxStreamLimit : Int) (s : muxSession) : SessOp → muxSession
  | .open_ openErr =>
    (muxSession.openStream { s with Session := { s.Session with openErr := openErr } }
      maxStreamLimit).2
  | .close stream =>
    (muxStream.Close { Stream := stream, onClose := muxSession.tryCloseOnIdle } s).2

/-- The session after a sequence of steps. -/
def sessRun (maxStreamLimit : Int) (s : muxSession) (ops : List SessOp) : muxSession :=
  ops.foldl (sessStep maxStreamLimit) s

/-- The session after `n` calls of `Close` on the same `muxStream`. -/
def closeTimes (s : muxStream) : Nat → muxSession → muxSession
  | 0, w => w
  | n + 1, w => closeTimes s n (s.Close w).2

/-- The scan of `getStream` stops at this session: it is open, below the limit,
and its `OpenStream` succeeds. -/
def Session.fits (muxMaxStream : Int) (s : Session) : Bool :=
  !s.IsClosed && decide (s.NumStreams < muxMaxStream) && s.OpenStream.1.isOk

/-- The session is merely saturated: open, and at or above the limit. -/
def Session.saturated (muxMaxStream : Int) (s : Session) : Bool :=
  !s.IsClosed && !decide (s.NumStreams < muxMaxStream)

/-- The session is open and below the limit but its `OpenStream` fails. -/
def Session.broken (muxMaxStream : Int) (s : Session) : Bool :=
  !s.IsClosed && decide (s.NumStreams < muxMaxStream) && !s.OpenStream.1.isOk

/-- The keys of a pool. -/
def poolIds (pool : List Session) : List Nat := pool.map (fun t => t.id)

/-- One step of the life of a pool: a call of `getStream`, or anything the rest
of the program and the network do to the sessions in between (streams are
opened and closed, sessions die, the reaper runs). The latter changes the state
of sessions but neither their identity nor the contents of the map. -/
inductive PoolOp where
  | getStream (muxMaxStream : Int) (d : DialOutcome)
  | world (f : Session → Session)

/-- The pool after one step. -/
def poolStep (p : smuxSessPool) : PoolOp → smuxSessPool
  | .getStream muxMaxStream d => (p.getStream muxMaxStream d).2
  | .world f => { p with pool := p.pool.map (fun t => { f t with id := t.id }) }

/-- The pool after a sequence of steps. -/
def poolRun (p : smuxSessPool) (ops : List PoolOp) : smuxSessPool :=
  ops.foldl poolStep p

/-- The session a `getStream` step dials, if its answer is a session. -/
def PoolOp.dialed : PoolOp → Option Session
  | .getStream _ (.ok sess) => some sess
  | _ => none

/-- The pool after `n` calls of `getStream` one after another from the empty
pool, with stream cap `c`, every dial and every open succeeding and nothing
closed in between. Before call number `k` (from 0) the map presents its keys to
`Range` in the order `order k`. -/
def getStreamN (c : Int) (order : Nat → List Session → List Session) : Nat → smuxSessPool
  | 0 => defaultSessPool
  | n + 1 =>
    let p := getStreamN c order n
    (smuxSessPool.getStream { p with pool := order n p.pool } c (.ok (freshSession p.dials))).2

/-- The result of call number `n` (from 0) in the run of `getStreamN`. -/
def getStreamNth (c : Int) (order : Nat → List Session → List Session) (n : Nat) :
    Except Error Stream :=
  let p := getStreamN c order n
  (smuxSessPool.getStream { p with pool := order n p.pool } c (.ok (freshSession p.dials))).1

/-! ## Concrete sessions and pools -/

/-- A session that has been closed. -/
def exampleClosed : Session := { freshSession 1 with closed := true }

/-- A session that carries one stream. -/
def exampleFull : Session := { freshSession 2 with streams := [3], nextStreamID := 3 }

/-- An open session on which the next `OpenStream` fails. -/
def exampleBroken : Session := { freshSession 3 with openErr := some (.other 7) }

/-- A session that carries one stream, on a network that fails the close of a
stream. -/
def exampleFailing : Session := { exampleFull with finErr := some (.other 1) }

/-- A pool of five sessions: closed, carrying one stream, broken, and two
that are new. -/
def examplePool : smuxSessPool :=
  { pool := [exampleClosed, exampleFull, exampleBroken, freshSession 4, freshSession 5],
    dials := 5 }

/-- A pool in which no session can take a stream under a limit of 1. -/
def exampleStuckPool : smuxSessPool :=
  { pool := [exampleClosed, exampleFull, exampleBroken], dials := 3 }

/-- The session after the rest of the program has acted on it during `m` waits
of the reaper in a row, the waits for ticks `j`, ..., `j + m - 1`; the reaper
itself changes the session only when it closes it. -/
def envRun (env : Nat → Session → Session) : Nat → Nat → Session → Session
  | 0, _, sess => sess
  | m + 1, j, sess => envRun env m (j + 1) (env j sess)

/-- The value of `lastBusy` after the ticks `k0`, ..., `k0 + b - 1` have all
found the session busy: the time of the last of them, or the initial value when
there is none. -/
def lastBusyAfter (tick : Nat → Int) (k0 : Nat) (lastBusy : Int) (b : Nat) : Int :=
  if b = 0 then lastBusy else tick (k0 + b - 1)

/-- A ticker started at time 0: tick `k` comes at `(k + 1)` check intervals. -/
def exampleTick (k : Nat) : Int := muxCheckIdleInterval * (k + 1)

/-- The rest of the program leaves the session alone. -/
def exampleQuietEnv (_ : Nat) (s : Session) : Session := s

/-- The session carries one stream at every tick up to tick 19 (40 s) and none
at any later tick. -/
def exampleBusyEnv (k : Nat) (s : Session) : Session :=
  if k ≤ 19 then { s with streams := [3] } else { s with streams := [] }

/-- A session in the run of `getStreamN` with cap `c`: open, on a network that
grants every open, carrying at least one and at most `c` streams. -/
def goodSession (c : Nat) (s : Session) : Prop :=
  s.closed = false ∧ s.openErr = none ∧ 1 ≤ s.streams.length ∧ s.streams.length ≤ c

/-- The number of live streams over all sessions of a pool. -/
def streamTotal (pool : List Session) : Nat :=
  (pool.map (fun s => s.streams.length)).sum

/-! ## Theorems -/

/-! ### The transport model -/

theorem Session.NumStreams_nonneg (s : Session) : 0 ≤ s.NumStreams := by
  unfold Session.NumStreams
  split <;> simp

theorem Session.OpenStream_calls (s : Session) :
    s.OpenStream.2.calls = s.calls ++ [Call.OpenStream] := by
  unfold Session.OpenStream
  cases s.closed <;> cases s.openErr <;> simp

theorem Session.OpenStream_NumStreams_le (s : Session) :
    s.OpenStream.2.NumStreams ≤ s.NumStreams + 1 := by
  unfold Session.OpenStream Session.NumStreams
  cases hc : s.closed <;> cases s.openErr <;> simp [hc]

theorem Stream.Close_NumStreams_le (st : Stream) (s : Session) :
    (st.Close s).2.NumStreams ≤ s.NumStreams := by
  unfold Stream.Close Session.NumStreams
  cases hc : s.closed
  · by_cases hm : st.id ∈ s.streams
    · simp [hm, hc, List.length_erase_le]
    · simp [hm, hc]
  · simp [hc]

theorem Session.Close_NumStreams (s : Session) : s.Close.2.NumStreams = 0 := by
  unfold Session.Close Session.NumStreams
  cases hc : s.closed <;> simp [hc]

/-! ### cmux.go -/

/-- C1: `openStream(maxStreamLimit)` on any session. At or above the limit it
returns `ErrTooManyStreams`, the transport receives no call at all and the
session (so its stream count) is unchanged. Below the limit the transport
receives exactly one `OpenStream`, the session becomes what that call leaves,
a failure of the transport is returned with its error unchanged, and a success
is returned as a `muxStream` around the transport's stream whose `onClose` is
`tryCloseOnIdle` of the session. -/
theorem openStream_contract (s : muxSession) (maxStreamLimit : Int) :
    (s.Session.NumStreams ≥ maxStreamLimit →
      (s.openStream maxStreamLimit).1 = .error Error.ErrTooManyStreams ∧
      (s.openStream maxStreamLimit).2 = s ∧
      (s.openStream maxStreamLimit).2.Session.calls = s.Session.calls ∧
      (s.openStream maxStreamLimit).2.Session.NumStreams = s.Session.NumStreams) ∧
    (¬ s.Session.NumStreams ≥ maxStreamLimit →
      (s.openStream maxStreamLimit).2 = { s with Session := s.Session.OpenStream.2 } ∧
      (s.openStream maxStreamLimit).2.Session.calls = s.Session.calls ++ [Call.OpenStream] ∧
      (∀ err, s.Session.OpenStream.1 = .error err →
        (s.openStream maxStreamLimit).1 = .error err) ∧
      (∀ stream, s.Session.OpenStream.1 = .ok stream →
        (s.openStream maxStreamLimit).1 =
          .ok { Stream := stream, onClose := muxSession.tryCloseOnIdle })) := by
  constructor
  · intro h
    simp [muxSession.openStream, h]
  · intro h
    have hcalls := Session.OpenStream_calls s.Session
    unfold muxSession.openStream
    rw [if_neg h]
    rcases hop : s.Session.OpenStream with ⟨r, t⟩
    rw [hop] at hcalls
    cases r with
    | error e => simpa using hcalls
    | ok st => simpa using hcalls

/-- C1, at a new session: with limit 0 the call is refused and the session is
untouched; with limit 1 the transport receives one `OpenStream`. -/
theorem openStream_contract_witness :
    ((newMuxSession (freshSession 0)).openStream 0).2 = newMuxSession (freshSession 0) ∧
    ((newMuxSession (freshSession 0)).openStream 1).2.Session.calls = [Call.OpenStream] :=
  ⟨((openStream_contract (newMuxSession (freshSession 0)) 0).1 (by decide)).2.1,
    ((openStream_contract (newMuxSession (freshSession 0)) 1).2 (by decide)).2.1⟩

theorem openStream_NumStreams_le (L : Int) (u : muxSession) (h : u.Session.NumStreams ≤ L) :
    (u.openStream L).2.Session.NumStreams ≤ L := by
  unfold muxSession.openStream
  split
  · exact h
  · rename_i hlt
    have hle := Session.OpenStream_NumStreams_le u.Session
    rcases hop : u.Session.OpenStream with ⟨r, t⟩
    rw [hop] at hle
    simp only at hle
    cases r <;> simp only <;> omega

theorem notifying_Close_NumStreams_le (st : Stream) (u : muxSession) :
    (muxStream.Close { Stream := st, onClose := muxSession.tryCloseOnIdle } u).2.Session.NumStreams
      ≤ u.Session.NumStreams := by
  simp only [muxStream.Close, muxSession.tryCloseOnIdle]
  have hle := Stream.Close_NumStreams_le st u.Session
  split
  · simp only [Session.Close_NumStreams]
    exact Session.NumStreams_nonneg u.Session
  · exact hle

/-- C2: from a session that carries at most `L` streams, after any finite
sequence of `openStream(L)` calls (whatever the transport answers to each) and
closes of streams, the session carries at most `L` streams. -/
theorem streams_never_exceed_limit (L : Int) (s : muxSession)
    (h : s.Session.NumStreams ≤ L) (ops : List SessOp) :
    (sessRun L s ops).Session.NumStreams ≤ L := by
  unfold sessRun
  induction ops generalizing s with
  | nil => simpa using h
  | cons op ops ih =>
    rw [List.foldl_cons]
    apply ih
    cases op with
    | open_ oe =>
      exact openStream_NumStreams_le L _ h
    | close st =>
      exact le_trans (notifying_Close_NumStreams_le st s) h

/-- C2, at a concrete run: limit 1, two opens that the transport grants, a
close, one more open. -/
theorem streams_never_exceed_limit_witness :
    (newMuxSession (freshSession 0)).Session.NumStreams ≤ 1 ∧
    (sessRun 1 (newMuxSession (freshSession 0))
      [.open_ none, .open_ none, .close ⟨0, 3⟩, .open_ none]).Session.NumStreams ≤ 1 :=
  ⟨by decide, streams_never_exceed_limit 1 (newMuxSession (freshSession 0)) (by decide) _⟩

/-- C3: `tryCloseOnIdle` on any session. The transport session receives a
`Close` if and only if its stream count is zero at the call. With a zero count
the result is that of the transport's `Close` and the session is what that
`Close` leaves; with a non-zero count the result is nil, the transport session
is untouched (no call received, same stream count) and it is still open. -/
theorem tryCloseOnIdle_contract (s : muxSession) :
    (s.tryCloseOnIdle.2.Session.calls = s.Session.calls ++ [Call.Close] ↔
      s.Session.NumStreams = 0) ∧
    (s.Session.NumStreams = 0 →
      s.tryCloseOnIdle.1 = s.Session.Close.1 ∧
      s.tryCloseOnIdle.2.Session = s.Session.Close.2 ∧
      s.tryCloseOnIdle.2.Session.IsClosed = true) ∧
    (s.Session.NumStreams ≠ 0 →
      s.tryCloseOnIdle.1 = none ∧
      s.tryCloseOnIdle.2.Session = s.Session ∧
      s.tryCloseOnIdle.2.Session.NumStreams = s.Session.NumStreams ∧
      s.tryCloseOnIdle.2.Session.IsClosed = false) := by
  have hcl : s.Session.Close.2.calls = s.Session.calls ++ [Call.Close] := by
    unfold Session.Close
    cases s.Session.closed <;> simp
  have hcl2 : s.Session.Close.2.IsClosed = true := by
    unfold Session.Close Session.IsClosed
    cases hc : s.Session.closed <;> simp [hc]
  by_cases h0 : s.Session.NumStreams = 0
  · simp [muxSession.tryCloseOnIdle, h0, hcl, hcl2]
  · have hopen : s.Session.IsClosed = false := by
      unfold Session.NumStreams at h0
      unfold Session.IsClosed
      cases hc : s.Session.closed
      · rfl
      · simp [hc] at h0
    simp [muxSession.tryCloseOnIdle, h0, hopen]

/-- C3, at a new session, which is idle, and at a session with one stream. -/
theorem tryCloseOnIdle_contract_witness :
    (newMuxSession (freshSession 0)).tryCloseOnIdle.2.Session.IsClosed = true ∧
    (newMuxSession exampleFull).tryCloseOnIdle.1 = none ∧
    (newMuxSession exampleFull).tryCloseOnIdle.2.Session = exampleFull :=
  ⟨((tryCloseOnIdle_contract (newMuxSession (freshSession 0))).2.1 (by decide)).2.2,
    ((tryCloseOnIdle_contract (newMuxSession exampleFull)).2.2 (by decide)).1,
    ((tryCloseOnIdle_contract (newMuxSession exampleFull)).2.2 (by decide)).2.1⟩

/-- C4: one call of `muxStream.Close`, for any stream, any callback and any
state of the session (so any outcome of closing the channel). The call is one
application of `onClose`, to the state in which the transport has just received
the close of the channel and nothing else has changed; the value and the state
it returns are those of that one application, also when the close of the
channel reported an error. With `tryCloseOnIdle` as the callback the count of
idle checks goes up by exactly one. -/
theorem muxStream_Close_contract (s : muxStream) (w : muxSession) :
    (∃ w1 : muxSession,
      w1.Session.calls = w.Session.calls ++ [Call.StreamClose s.Stream.id] ∧
      w1.Session = (s.Stream.Close w.Session).2 ∧
      w1.idleChecks = w.idleChecks ∧
      s.Close w = s.onClose w1) ∧
    (∀ err, (s.Stream.Close w.Session).1 = some err →
      (s.Close w).1 = (s.onClose { w with Session := (s.Stream.Close w.Session).2 }).1) ∧
    (muxStream.Close { Stream := s.Stream, onClose := muxSession.tryCloseOnIdle } w).2.idleChecks
      = w.idleChecks + 1 := by
  refine ⟨⟨{ w with Session := (s.Stream.Close w.Session).2 }, ?_, rfl, rfl, rfl⟩, ?_, ?_⟩
  · unfold Stream.Close
    split <;> rfl
  · intro _ _
    rfl
  · simp only [muxStream.Close, muxSession.tryCloseOnIdle]
    split <;> rfl

/-- C4, at a stream whose channel fails to close: the failure is dropped and
`Close` returns what the idle check returns, here nil after closing the
session. -/
theorem muxStream_Close_contract_witness :
    (Stream.Close ⟨2, 3⟩ exampleFailing).1 = some (.other 1) ∧
    (muxStream.Close { Stream := ⟨2, 3⟩, onClose := muxSession.tryCloseOnIdle }
      (newMuxSession exampleFailing)).1
      = (muxSession.tryCloseOnIdle
          { newMuxSession exampleFailing with
            Session := (Stream.Close ⟨2, 3⟩ exampleFailing).2 }).1 ∧
    (muxStream.Close { Stream := ⟨2, 3⟩, onClose := muxSession.tryCloseOnIdle }
      (newMuxSession exampleFailing)).1 = none :=
  ⟨by decide,
    (muxStream_Close_contract { Stream := ⟨2, 3⟩, onClose := muxSession.tryCloseOnIdle }
      (newMuxSession exampleFailing)).2.1 (.other 1) (by decide),
    by decide⟩

theorem closeTimes_idleChecks (st : Stream) (n : Nat) (w : muxSession) :
    (closeTimes { Stream := st, onClose := muxSession.tryCloseOnIdle } n w).idleChecks
      = w.idleChecks + n := by
  induction n generalizing w with
  | zero => rfl
  | succ n ih =>
    have h1 : (muxStream.Close { Stream := st, onClose := muxSession.tryCloseOnIdle } w).2.idleChecks
        = w.idleChecks + 1 := by
      simp only [muxStream.Close, muxSession.tryCloseOnIdle]
      split <;> rfl
    simp only [closeTimes]
    rw [ih, h1]
    omega

/-- C10, refuted as stated: two calls of `Close` on the stream that
`openStream` handed out run the idle check of the session twice, not once. -/
theorem close_twice_checks_twice :
    (((newMuxSession (freshSession 0)).openStream 2).1.toOption.map (fun m => m.Stream)
        = some ⟨0, 3⟩) ∧
    ((newMuxSession (freshSession 0)).openStream 2).2.idleChecks = 0 ∧
    (closeTimes { Stream := ⟨0, 3⟩, onClose := muxSession.tryCloseOnIdle } 2
      ((newMuxSession (freshSession 0)).openStream 2).2).idleChecks = 2 := by
  decide

/-- C10, amended: `n` calls of `Close` on the same stream run the idle check of
the owning session exactly `n` times, once per call. -/
theorem close_n_times_checks_n_times (st : Stream) (n : Nat) (w : muxSession) :
    (closeTimes { Stream := st, onClose := muxSession.tryCloseOnIdle } n w).idleChecks
      = w.idleChecks + n ∧
    (closeTimes { Stream := st, onClose := muxSession.tryCloseOnIdle } 1 w).idleChecks
      = w.idleChecks + 1 :=
  ⟨closeTimes_idleChecks st n w, closeTimes_idleChecks st 1 w⟩

/-! ### local.go: the scan of the pool -/

theorem Session.OpenStream_id (s : Session) : s.OpenStream.2.id = s.id := by
  unfold Session.OpenStream
  cases s.closed <;> cases s.openErr <;> rfl

theorem poolDelete_of_not_mem (l : List Session) (s : Session) (h : s.id ∉ poolIds l) :
    poolDelete l s = l := by
  unfold poolDelete
  rw [List.filter_eq_self]
  intro t ht
  have : t.id ≠ s.id := by
    intro heq
    exact h (heq ▸ List.mem_map_of_mem (fun t => t.id) ht)
  simpa using this

theorem poolDelete_mid (done rest : List Session) (key : Session)
    (hnd : (poolIds (done ++ key :: rest)).Nodup) :
    poolDelete (done ++ key :: rest) key = done ++ rest := by
  unfold poolIds at hnd
  rw [List.map_append, List.map_cons, List.nodup_append] at hnd
  obtain ⟨_, h2, h3⟩ := hnd
  rw [List.nodup_cons] at h2
  have hd : key.id ∉ poolIds done := fun hm => h3 hm (List.mem_cons_self _ _)
  have hr : key.id ∉ poolIds rest := h2.1
  have e1 := poolDelete_of_not_mem done key hd
  have e2 := poolDelete_of_not_mem rest key hr
  unfold poolDelete at *
  rw [List.filter_append, List.filter_cons, e1, e2]
  simp

theorem poolUpdate_of_not_mem (l : List Session) (s : Session) (h : s.id ∉ poolIds l) :
    poolUpdate l s = l := by
  unfold poolUpdate
  conv_rhs => rw [← List.map_id l]
  apply List.map_congr_left
  intro t ht
  have : t.id ≠ s.id := by
    intro heq
    exact h (heq ▸ List.mem_map_of_mem (fun t => t.id) ht)
  simp [this]

theorem poolUpdate_mid (done rest : List Session) (key key1 : Session) (hid : key1.id = key.id)
    (hnd : (poolIds (done ++ key :: rest)).Nodup) :
    poolUpdate (done ++ key :: rest) key1 = done ++ key1 :: rest := by
  unfold poolIds at hnd
  rw [List.map_append, List.map_cons, List.nodup_append] at hnd
  obtain ⟨_, h2, h3⟩ := hnd
  rw [List.nodup_cons] at h2
  have hd : key1.id ∉ poolIds done := fun hm => h3 (hid ▸ hm) (List.mem_cons_self _ _)
  have hr : key1.id ∉ poolIds rest := hid ▸ h2.1
  have e1 := poolUpdate_of_not_mem done key1 hd
  have e2 := poolUpdate_of_not_mem rest key1 hr
  unfold poolUpdate at *
  rw [List.map_append, List.map_cons, e1, e2]
  simp [hid]

theorem try_saturated (c : Int) (sess : Session) (st : ScanState)
    (h : sess.saturated c = true) : getStream_try c sess st = (true, st) := by
  unfold Session.saturated at h
  simp only [Bool.and_eq_true, Bool.not_eq_true', decide_eq_false_iff_not] at h
  unfold getStream_try
  rw [if_neg (by simp [h.1]), if_neg h.2]

theorem try_fits (c : Int) (sess : Session) (st : ScanState) (h : sess.fits c = true) :
    getStream_try c sess st =
      (false, { stream := sess.OpenStream.1.toOption,
                pool := poolUpdate st.pool sess.OpenStream.2 }) := by
  unfold Session.fits at h
  simp only [Bool.and_eq_true, Bool.not_eq_true', decide_eq_true_eq] at h
  obtain ⟨⟨h1, h2⟩, h3⟩ := h
  unfold getStream_try
  rw [if_neg (by simp [h1]), if_pos h2]
  rcases hop : sess.OpenStream with ⟨r, t⟩
  rw [hop] at h3
  cases r with
  | error e => simp [Except.isOk, Except.toBool] at h3
  | ok v => rfl

theorem try_evicts (c : Int) (sess : Session) (pl : List Session)
    (hf : sess.fits c = false) (hs : sess.saturated c = false) :
    getStream_try c sess { stream := none, pool := pl } =
      (true, { stream := none, pool := poolDelete pl sess }) := by
  unfold Session.fits at hf
  unfold Session.saturated at hs
  unfold getStream_try
  cases hc : sess.IsClosed
  · simp only [hc, Bool.not_false, Bool.true_and, Bool.and_eq_false_imp, decide_eq_true_eq,
      Bool.not_eq_false', decide_eq_false_iff_not, not_not] at hf hs
    rw [if_neg (by simp), if_pos hs]
    have h3 := hf hs
    rcases hop : sess.OpenStream with ⟨r, t⟩
    rw [hop] at h3
    cases r with
    | error e => rfl
    | ok v => simp [Except.isOk, Except.toBool] at h3
  · simp

theorem Range_no_fit (c : Int) (keys done : List Session)
    (hnd : (poolIds (done ++ keys)).Nodup) (hno : ∀ t ∈ keys, t.fits c = false) :
    Range (getStream_try c) keys { stream := none, pool := done ++ keys } =
      { stream := none, pool := done ++ keys.filter (fun t => t.saturated c) } := by
  induction keys generalizing done with
  | nil => simp [Range]
  | cons key rest ih =>
    have hkey := hno key (List.mem_cons_self _ _)
    have hrest : ∀ t ∈ rest, t.fits c = false := fun t ht => hno t (List.mem_cons_of_mem _ ht)
    unfold Range
    cases hs : key.saturated c
    · rw [try_evicts c key _ hkey hs, poolDelete_mid done rest key hnd]
      simp only [List.filter_cons, hs, Bool.false_eq_true, if_false]
      apply ih _ _ hrest
      unfold poolIds at hnd ⊢
      rw [List.map_append, List.map_cons] at hnd
      rw [List.map_append]
      exact hnd.sublist (List.Sublist.append_left (List.sublist_cons_self _ _) _)
    · rw [try_saturated c key _ hs]
      simp only [List.filter_cons, hs, if_true]
      have := ih (done ++ [key]) (by simpa using hnd) hrest
      simpa using this

theorem Range_first_fit (c : Int) (pre : List Session) (sess : Session) (post done : List Session)
    (hnd : (poolIds (done ++ (pre ++ sess :: post))).Nodup)
    (hno : ∀ t ∈ pre, t.fits c = false) (hfit : sess.fits c = true) :
    Range (getStream_try c) (pre ++ sess :: post)
        { stream := none, pool := done ++ (pre ++ sess :: post) } =
      { stream := sess.OpenStream.1.toOption,
        pool := done ++ (pre.filter (fun t => t.saturated c) ++ sess.OpenStream.2 :: post) } := by
  induction pre generalizing done with
  | nil =>
    simp only [List.nil_append, Range, List.filter_nil]
    rw [try_fits c sess _ hfit]
    simp only
    rw [poolUpdate_mid done post sess _ (Session.OpenStream_id sess) (by simpa using hnd)]
  | cons key rest ih =>
    have hkey := hno key (List.mem_cons_self _ _)
    have hrest : ∀ t ∈ rest, t.fits c = false := fun t ht => hno t (List.mem_cons_of_mem _ ht)
    rw [List.cons_append]
    unfold Range
    cases hs : key.saturated c
    · rw [try_evicts c key _ hkey hs, poolDelete_mid done _ key (by simpa using hnd)]
      simp only [List.filter_cons, hs, Bool.false_eq_true, if_false]
      apply ih _ _ hrest
      unfold poolIds at hnd ⊢
      rw [List.cons_append, List.map_append, List.map_cons] at hnd
      rw [List.map_append]
      exact hnd.sublist (List.Sublist.append_left (List.sublist_cons_self _ _) _)
    · rw [try_saturated c key _ hs]
      simp only [List.filter_cons, hs, if_true]
      have := ih (done ++ [key]) (by simpa using hnd) hrest
      simpa using this

theorem first_fit_split (c : Int) (l : List Session) :
    (∀ t ∈ l, t.fits c = false) ∨
    ∃ pre sess post, l = pre ++ sess :: post ∧ (∀ t ∈ pre, t.fits c = false) ∧
      sess.fits c = true := by
  induction l with
  | nil => left; simp
  | cons a l ih =>
    cases ha : a.fits c
    · rcases ih with h | ⟨pre, sess, post, h1, h2, h3⟩
      · left
        intro t ht
        rcases List.mem_cons.mp ht with rfl | ht
        · exact ha
        · exact h t ht
      · right
        refine ⟨a :: pre, sess, post, by simp [h1], ?_, h3⟩
        intro t ht
        rcases List.mem_cons.mp ht with rfl | ht
        · exact ha
        · exact h2 t ht
    · right
      exact ⟨[], a, l, rfl, by simp, ha⟩

theorem fits_isOk (c : Int) (sess : Session) (h : sess.fits c = true) :
    ∃ stream, sess.OpenStream.1 = .ok stream := by
  unfold Session.fits at h
  simp only [Bool.and_eq_true] at h
  rcases hop : sess.OpenStream.1 with e | v
  · rw [hop] at h
    simp [Except.isOk, Except.toBool] at h
  · exact ⟨v, rfl⟩

theorem getStream_of_first_fit (p : smuxSessPool) (c : Int) (d : DialOutcome)
    (pre : List Session) (sess : Session) (post : List Session)
    (hp : p.pool = pre ++ sess :: post) (hnd : (poolIds p.pool).Nodup)
    (hno : ∀ t ∈ pre, t.fits c = false) (hfit : sess.fits c = true) :
    p.getStream c d =
      (sess.OpenStream.1,
        { pool := pre.filter (fun t => t.saturated c) ++ sess.OpenStream.2 :: post,
          dials := p.dials }) := by
  have hR := Range_first_fit c pre sess post [] (by simpa [hp] using hnd) hno hfit
  simp only [List.nil_append] at hR
  obtain ⟨stream, hst⟩ := fits_isOk c sess hfit
  unfold smuxSessPool.getStream
  simp only [hp, hR, hst, Except.toOption]

theorem poolStore_update (l : List Session) (sess sess1 : Session) (hid : sess1.id = sess.id) :
    poolUpdate (poolStore l sess) sess1 = poolDelete l sess ++ [sess1] := by
  have hnot : sess1.id ∉ poolIds (poolDelete l sess) := by
    unfold poolIds poolDelete
    intro hm
    obtain ⟨t, ht, hte⟩ := List.mem_map.mp hm
    have := (List.mem_filter.mp ht).2
    simp [hid] at this
    exact this (by simpa [hid] using hte)
  have e1 := poolUpdate_of_not_mem _ sess1 hnot
  unfold poolStore
  unfold poolUpdate poolDelete at *
  rw [List.map_append, e1]
  simp [hid]

theorem getStream_of_no_fit (p : smuxSessPool) (c : Int) (d : DialOutcome)
    (hnd : (poolIds p.pool).Nodup) (hno : ∀ t ∈ p.pool, t.fits c = false) :
    p.getStream c d =
      match d with
      | .connErr err =>
        (.error err, { pool := p.pool.filter (fun t => t.saturated c), dials := p.dials + 1 })
      | .clientErr err =>
        (.error err, { pool := p.pool.filter (fun t => t.saturated c), dials := p.dials + 1 })
      | .ok sess =>
        (sess.OpenStream.1,
          { pool := poolDelete (p.pool.filter (fun t => t.saturated c)) sess ++ [sess.OpenStream.2],
            dials := p.dials + 1 }) := by
  have hR := Range_no_fit c p.pool [] (by simpa using hnd) hno
  simp only [List.nil_append] at hR
  unfold smuxSessPool.getStream
  simp only [hR]
  cases d with
  | connErr err => rfl
  | clientErr err => rfl
  | ok sess =>
    simp only [smuxSessPool.dialNewSess]
    rw [poolStore_update _ sess _ (Session.OpenStream_id sess)]

/-! ### local.go: `getStream` -/

/-- C5: `getStream` is first-fit, on any pool (a map: its keys are distinct),
any limit and any answer of the dialer. If the scan order is `pre`, then
`sess`, then `post`, where no session of `pre` is open, below the limit and
able to open a stream and `sess` is, the call returns the stream opened on
`sess`, dials nothing, and leaves in the pool the saturated sessions of `pre`
as they were, `sess` with its new stream, and `post` as it was. If no session
of the pool qualifies, the call dials exactly once; on a dial failure it
returns that error and the pool holds the saturated sessions only; on a dial
success it returns the result of `OpenStream` on the new session and the pool
holds the saturated sessions and the new session. -/
theorem getStream_first_fit (p : smuxSessPool) (muxMaxStream : Int) (d : DialOutcome)
    (hnd : (poolIds p.pool).Nodup) :
    (∀ pre sess post, p.pool = pre ++ sess :: post →
      (∀ t ∈ pre, t.fits muxMaxStream = false) → sess.fits muxMaxStream = true →
      (∃ stream, sess.OpenStream.1 = .ok stream ∧ stream.sess = sess.id ∧
        (p.getStream muxMaxStream d).1 = .ok stream) ∧
      (p.getStream muxMaxStream d).2.pool =
        pre.filter (fun t => t.saturated muxMaxStream) ++ sess.OpenStream.2 :: post ∧
      (p.getStream muxMaxStream d).2.dials = p.dials) ∧
    ((∀ t ∈ p.pool, t.fits muxMaxStream = false) →
      (p.getStream muxMaxStream d).2.dials = p.dials + 1 ∧
      (∀ err, d = .connErr err ∨ d = .clientErr err →
        (p.getStream muxMaxStream d).1 = .error err ∧
        (p.getStream muxMaxStream d).2.pool =
          p.pool.filter (fun t => t.saturated muxMaxStream)) ∧
      (∀ sess, d = .ok sess →
        (p.getStream muxMaxStream d).1 = sess.OpenStream.1 ∧
        (p.getStream muxMaxStream d).2.pool =
          poolDelete (p.pool.filter (fun t => t.saturated muxMaxStream)) sess
            ++ [sess.OpenStream.2])) := by
  constructor
  · intro pre sess post hp hno hfit
    rw [getStream_of_first_fit p muxMaxStream d pre sess post hp hnd hno hfit]
    obtain ⟨stream, hst⟩ := fits_isOk muxMaxStream sess hfit
    refine ⟨⟨stream, hst, ?_, hst⟩, rfl, rfl⟩
    unfold Session.OpenStream at hst
    cases hc : sess.closed <;> cases ho : sess.openErr <;> simp [hc, ho] at hst
    rw [← hst]
  · intro hno
    rw [getStream_of_no_fit p muxMaxStream d hnd hno]
    refine ⟨?_, ?_, ?_⟩
    · cases d <;> rfl
    · rintro err (rfl | rfl) <;> exact ⟨rfl, rfl⟩
    · rintro sess rfl
      exact ⟨rfl, rfl⟩

/-- C5, at a concrete pool with limit 1: the scan drops the closed and the
broken session, keeps the saturated one and stops at the first new session. -/
theorem getStream_first_fit_witness :
    (poolIds examplePool.pool).Nodup ∧
    (examplePool.getStream 1 (.connErr .ErrClosedPipe)).2.pool =
      [exampleFull, (freshSession 4).OpenStream.2, freshSession 5] ∧
    (examplePool.getStream 1 (.connErr .ErrClosedPipe)).2.dials = 5 :=
  ⟨by decide,
    ((getStream_first_fit examplePool 1 (.connErr .ErrClosedPipe) (by decide)).1
      [exampleClosed, exampleFull, exampleBroken] (freshSession 4) [freshSession 5]
      rfl (by decide) (by decide)).2⟩

theorem poolIds_poolUpdate (l : List Session) (s : Session) :
    poolIds (poolUpdate l s) = poolIds l := by
  unfold poolIds poolUpdate
  rw [List.map_map]
  apply List.map_congr_left
  intro t _
  by_cases h : t.id = s.id <;> simp [h]

theorem poolIds_poolDelete (l : List Session) (s : Session) (x : Nat)
    (h : x ∈ poolIds (poolDelete l s)) : x ∈ poolIds l := by
  unfold poolIds poolDelete at h
  obtain ⟨t, ht, hte⟩ := List.mem_map.mp h
  exact List.mem_map.mpr ⟨t, (List.mem_filter.mp ht).1, hte⟩

theorem try_ids (c : Int) (key : Session) (st : ScanState) (x : Nat)
    (h : x ∈ poolIds (getStream_try c key st).2.pool) : x ∈ poolIds st.pool := by
  unfold getStream_try at h
  split at h
  · exact poolIds_poolDelete _ _ _ h
  · split at h
    · split at h
      · exact poolIds_poolDelete _ _ _ h
      · simpa [poolIds_poolUpdate] using h
    · exact h

theorem Range_ids (c : Int) (keys : List Session) (st : ScanState) (x : Nat)
    (h : x ∈ poolIds (Range (getStream_try c) keys st).pool) : x ∈ poolIds st.pool := by
  induction keys generalizing st with
  | nil => exact h
  | cons key rest ih =>
    unfold Range at h
    have ht := try_ids c key st x
    rcases hk : getStream_try c key st with ⟨b, st1⟩
    rw [hk] at h ht
    cases b
    · exact ht h
    · exact ht (ih st1 h)

theorem getStream_ids (p : smuxSessPool) (c : Int) (d : DialOutcome) (x : Nat)
    (h : x ∈ poolIds (p.getStream c d).2.pool) :
    x ∈ poolIds p.pool ∨ ∃ sess, d = .ok sess ∧ x = sess.id := by
  have hR := Range_ids c p.pool { stream := none, pool := p.pool } x
  unfold smuxSessPool.getStream at h
  simp only at h
  split at h
  · cases d with
    | connErr err => exact Or.inl (hR h)
    | clientErr err => exact Or.inl (hR h)
    | ok sess =>
      simp only [smuxSessPool.dialNewSess, poolIds_poolUpdate] at h
      unfold poolStore at h
      unfold poolIds at h
      rw [List.map_append, List.mem_append] at h
      rcases h with h | h
      · left
        apply hR
        exact poolIds_poolDelete _ sess _ h
      · right
        exact ⟨sess, rfl, by simpa using h⟩
  · exact Or.inl (hR h)

theorem poolStep_ids (p : smuxSessPool) (op : PoolOp) (x : Nat)
    (h : x ∈ poolIds (poolStep p op).pool) :
    x ∈ poolIds p.pool ∨ ∃ sess, op.dialed = some sess ∧ x = sess.id := by
  cases op with
  | getStream c d =>
    rcases getStream_ids p c d x h with h | ⟨sess, rfl, hx⟩
    · exact Or.inl h
    · exact Or.inr ⟨sess, rfl, hx⟩
  | world f =>
    left
    simpa [poolStep, poolIds, List.map_map, Function.comp_def] using h

theorem poolRun_ids (ops : List PoolOp) (p : smuxSessPool) (x : Nat)
    (hx : x ∉ poolIds p.pool)
    (hfresh : ∀ op ∈ ops, ∀ sess, op.dialed = some sess → sess.id ≠ x) :
    x ∉ poolIds (poolRun p ops).pool := by
  unfold poolRun
  induction ops generalizing p with
  | nil => exact hx
  | cons op ops ih =>
    rw [List.foldl_cons]
    apply ih
    · intro hm
      rcases poolStep_ids p op x hm with h | ⟨sess, hd, hxe⟩
      · exact hx h
      · exact hfresh op (List.mem_cons_self _ _) sess hd hxe.symm
    · intro op1 h1
      exact hfresh op1 (List.mem_cons_of_mem _ h1)

theorem not_mem_ids_filter (l : List Session) (q : Session → Bool) (t : Session)
    (hnd : (poolIds l).Nodup) (ht : t ∈ l) (hq : q t = false) :
    t.id ∉ poolIds (l.filter q) := by
  intro hm
  unfold poolIds at hm hnd
  obtain ⟨u, hu, hue⟩ := List.mem_map.mp hm
  have hul := (List.mem_filter.mp hu).1
  have := List.inj_on_of_nodup_map hnd hul ht hue
  subst this
  rw [(List.mem_filter.mp hu).2] at hq
  exact Bool.noConfusion hq

theorem OpenStream_ok (s : Session) (stream : Stream) (h : s.OpenStream.1 = .ok stream) :
    stream.sess = s.id ∧ stream.id ∈ s.OpenStream.2.streams ∧
    s.OpenStream.2.IsClosed = false ∧ s.IsClosed = false ∧
    s.OpenStream.2.NumStreams = s.NumStreams + 1 := by
  unfold Session.OpenStream Session.IsClosed Session.NumStreams at *
  cases hc : s.closed <;> cases ho : s.openErr <;> simp [hc, ho] at h ⊢
  rw [← h]
  simp

theorem not_saturated_of_evictable (c : Int) (t : Session)
    (h : t.IsClosed = true ∨ t.broken c = true) : t.saturated c = false := by
  unfold Session.saturated
  rcases h with h | h
  · simp [h]
  · unfold Session.broken at h
    simp only [Bool.and_eq_true, decide_eq_true_eq] at h
    simp [h.1.2]

theorem returned_stream_in_pool (p : smuxSessPool) (c : Int) (d : DialOutcome)
    (hnd : (poolIds p.pool).Nodup) (stream : Stream)
    (h : (p.getStream c d).1 = .ok stream) :
    ∃ s0 : Session, s0.OpenStream.1 = .ok stream ∧ s0.OpenStream.2 ∈ (p.getStream c d).2.pool := by
  rcases first_fit_split c p.pool with hno | ⟨pre, sess, post, hp, hno, hfit⟩
  · rw [getStream_of_no_fit p c d hnd hno] at h ⊢
    cases d with
    | connErr err => simp at h
    | clientErr err => simp at h
    | ok sess => exact ⟨sess, h, by simp⟩
  · rw [getStream_of_first_fit p c d pre sess post hp hnd hno hfit] at h ⊢
    exact ⟨sess, h, by simp⟩

/-- C6: eviction during the scan of `getStream`, on any pool (a map: its keys
are distinct) and with a dialer that hands back new sessions. Whether the scan
stops at a session `sess` after visiting `pre`, or visits the whole pool: every
visited session that is closed, or open and below the limit with a failing
`OpenStream`, is no longer a key of the pool after the call; every visited
session that is merely saturated is still in the pool, unchanged. A stream the
call returns is a live stream of a session that is in the pool after the call,
so of no session deleted by the call. A session deleted by the call is not a
key of the pool after any later sequence of `getStream` calls and other events
in which the dialer hands back other sessions. -/
theorem getStream_evicts (p : smuxSessPool) (muxMaxStream : Int) (d : DialOutcome)
    (hnd : (poolIds p.pool).Nodup)
    (hfresh : ∀ sess, d = .ok sess → sess.id ∉ poolIds p.pool) :
    (∀ pre sess post, p.pool = pre ++ sess :: post →
      (∀ t ∈ pre, t.fits muxMaxStream = false) → sess.fits muxMaxStream = true →
      (∀ t ∈ pre, t.IsClosed = true ∨ t.broken muxMaxStream = true →
        t.id ∉ poolIds (p.getStream muxMaxStream d).2.pool) ∧
      (∀ t ∈ pre, t.saturated muxMaxStream = true →
        t ∈ (p.getStream muxMaxStream d).2.pool)) ∧
    ((∀ t ∈ p.pool, t.fits muxMaxStream = false) →
      (∀ t ∈ p.pool, t.IsClosed = true ∨ t.broken muxMaxStream = true →
        t.id ∉ poolIds (p.getStream muxMaxStream d).2.pool) ∧
      (∀ t ∈ p.pool, t.saturated muxMaxStream = true →
        t ∈ (p.getStream muxMaxStream d).2.pool)) ∧
    (∀ stream, (p.getStream muxMaxStream d).1 = .ok stream →
      (∃ s ∈ (p.getStream muxMaxStream d).2.pool, s.id = stream.sess ∧ stream.id ∈ s.streams) ∧
      (∀ t ∈ p.pool, t.id ∉ poolIds (p.getStream muxMaxStream d).2.pool →
        t.id ≠ stream.sess)) ∧
    (∀ t ∈ p.pool, t.id ∉ poolIds (p.getStream muxMaxStream d).2.pool →
      ∀ ops : List PoolOp, (∀ op ∈ ops, ∀ sess, op.dialed = some sess → sess.id ≠ t.id) →
        t.id ∉ poolIds (poolRun (p.getStream muxMaxStream d).2 ops).pool) := by
  have hret : ∀ stream, (p.getStream muxMaxStream d).1 = .ok stream →
      ∃ s ∈ (p.getStream muxMaxStream d).2.pool, s.id = stream.sess ∧ stream.id ∈ s.streams := by
    intro stream h
    obtain ⟨s0, h0, hm⟩ := returned_stream_in_pool p muxMaxStream d hnd stream h
    have hk := OpenStream_ok s0 stream h0
    exact ⟨_, hm, by rw [Session.OpenStream_id, hk.1], hk.2.1⟩
  refine ⟨?_, ?_, ?_, ?_⟩
  · intro pre sess post hp hno hfit
    rw [getStream_of_first_fit p muxMaxStream d pre sess post hp hnd hno hfit]
    have hnd1 := hnd
    unfold poolIds at hnd1
    rw [hp, List.map_append, List.nodup_append] at hnd1
    obtain ⟨hpre, _, hdisj⟩ := hnd1
    constructor
    · intro t ht hev
      have hns := not_saturated_of_evictable muxMaxStream t hev
      have h1 := not_mem_ids_filter pre (fun t => t.saturated muxMaxStream) t hpre ht hns
      have h2 := hdisj (List.mem_map_of_mem (fun t => t.id) ht)
      intro hm
      unfold poolIds at hm h1
      rw [List.map_append, List.mem_append] at hm
      rcases hm with hm | hm
      · exact h1 hm
      · rw [List.map_cons, Session.OpenStream_id] at hm
        exact h2 (by simpa using hm)
    · intro t ht hsat
      simp only [List.mem_append, List.mem_filter]
      exact Or.inl ⟨ht, hsat⟩
  · intro hno
    rw [getStream_of_no_fit p muxMaxStream d hnd hno]
    constructor
    · intro t ht hev
      have hns := not_saturated_of_evictable muxMaxStream t hev
      have h1 := not_mem_ids_filter p.pool (fun t => t.saturated muxMaxStream) t hnd ht hns
      cases d with
      | connErr err => exact h1
      | clientErr err => exact h1
      | ok sess =>
        have hne : sess.id ≠ t.id := fun he =>
          hfresh sess rfl (he ▸ List.mem_map_of_mem (fun t => t.id) ht)
        intro hm
        simp only [poolIds, List.map_append, List.mem_append, List.map_cons, List.map_nil,
          List.mem_singleton, Session.OpenStream_id] at hm
        rcases hm with hm | hm
        · exact h1 (poolIds_poolDelete _ sess _ hm)
        · exact hne hm.symm
    · intro t ht hsat
      have hf : t ∈ p.pool.filter (fun t => t.saturated muxMaxStream) :=
        List.mem_filter.mpr ⟨ht, hsat⟩
      cases d with
      | connErr err => exact hf
      | clientErr err => exact hf
      | ok sess =>
        have hne : t.id ≠ sess.id := fun he =>
          hfresh sess rfl (he ▸ List.mem_map_of_mem (fun t => t.id) ht)
        simp only [List.mem_append, poolDelete, List.mem_filter]
        exact Or.inl ⟨⟨ht, hsat⟩, by simpa using hne⟩
  · intro stream h
    obtain ⟨s, hs, hid, hlive⟩ := hret stream h
    refine ⟨⟨s, hs, hid, hlive⟩, ?_⟩
    intro t _ hnot he
    apply hnot
    rw [he, ← hid]
    exact List.mem_map_of_mem (fun t => t.id) hs
  · intro t _ hnot ops hops
    exact poolRun_ids ops _ t.id hnot hops

theorem tryCloseOnIdle_idle_iff (s : muxSession) :
    (s.Session.NumStreams = 0 → s.tryCloseOnIdle.2.Session.IsClosed = true) ∧
    (s.Session.NumStreams ≠ 0 →
      s.tryCloseOnIdle.2.Session.IsClosed = s.Session.IsClosed ∧
      s.tryCloseOnIdle.2.Session.NumStreams = s.Session.NumStreams) := by
  constructor
  · intro h0
    unfold muxSession.tryCloseOnIdle Session.Close Session.IsClosed
    simp only [h0, if_true]
    cases hc : s.Session.closed <;> simp [hc]
  · intro h0
    unfold muxSession.tryCloseOnIdle
    simp [h0]

/-- C6, at a concrete pool with limit 1 in which nothing fits: the broken
session is gone after the call, which dials session 9. -/
theorem getStream_evicts_witness :
    (poolIds exampleStuckPool.pool).Nodup ∧
    (freshSession 9).id ∉ poolIds exampleStuckPool.pool ∧
    exampleBroken.id ∉
      poolIds (exampleStuckPool.getStream 1 (.ok (freshSession 9))).2.pool :=
  ⟨by decide, by decide,
    ((getStream_evicts exampleStuckPool 1 (.ok (freshSession 9)) (by decide)
      (fun sess h => by cases h; decide)).2.1 (by decide)).1
      exampleBroken (by decide) (Or.inr (by decide))⟩

theorem Stream.Close_open (st : Stream) (s : Session) (h : s.IsClosed = false) :
    (st.Close s).2.IsClosed = false ∧
    (st.Close s).2.calls = s.calls ++ [Call.StreamClose st.id] ∧
    (st.id ∈ s.streams → (st.Close s).2.NumStreams = s.NumStreams - 1) := by
  unfold Session.IsClosed at h
  unfold Stream.Close Session.IsClosed Session.NumStreams
  by_cases hm : st.id ∈ s.streams
  · have hpos : 0 < s.streams.length := List.length_pos_of_mem hm
    simp [h, hm, List.length_erase_of_mem]
    omega
  · simp [h, hm]

/-- C7, refuted as stated: the stream `getStream` hands out on a new session is
the only stream of that session, and after it is closed the session carries no
stream and is still open. -/
theorem pool_stream_close_leaves_session_open :
    (defaultSessPool.getStream 2 (.ok (freshSession 0))).1 = .ok ⟨0, 3⟩ ∧
    (defaultSessPool.getStream 2 (.ok (freshSession 0))).2.pool.map
        (fun t => (t.id, t.NumStreams, t.IsClosed)) = [(0, 1, false)] ∧
    ((defaultSessPool.getStream 2 (.ok (freshSession 0))).2.closeStream ⟨0, 3⟩).pool.map
        (fun t => (t.id, t.NumStreams, t.IsClosed)) = [(0, 0, false)] :=
  ⟨rfl, by decide, by decide⟩

/-- C7, amended. A stream handed out by `getStream` is a bare transport stream,
live on an open session of the pool; closing it takes one stream off that
session, sends the session no `Close`, and leaves it open, whether or not the
stream was the last one; at any later time too, closing it leaves an open
session open. The close within the same call belongs to the streams
of `muxSession.openStream`: such a stream carries `tryCloseOnIdle` and is live
on the open session; closing a live one closes the session in that call when it
was the only stream, and leaves the session open with one stream fewer when
others are open. -/
theorem session_after_stream_close (p : smuxSessPool) (muxMaxStream : Int) (d : DialOutcome)
    (hnd : (poolIds p.pool).Nodup) :
    (∀ stream, (p.getStream muxMaxStream d).1 = .ok stream →
      ∃ s ∈ (p.getStream muxMaxStream d).2.pool,
        s.id = stream.sess ∧ s.IsClosed = false ∧ stream.id ∈ s.streams ∧
        (stream.Close s).2 ∈ ((p.getStream muxMaxStream d).2.closeStream stream).pool ∧
        (stream.Close s).2.IsClosed = false ∧
        (stream.Close s).2.NumStreams = s.NumStreams - 1 ∧
        (stream.Close s).2.calls = s.calls ++ [Call.StreamClose stream.id]) ∧
    (∀ (stream : Stream) (s : Session), s.IsClosed = false →
      (stream.Close s).2.IsClosed = false) ∧
    (∀ (w : muxSession) (L : Int) (ms : muxStream), (w.openStream L).1 = .ok ms →
      ms.onClose = muxSession.tryCloseOnIdle ∧
      (w.openStream L).2.Session.IsClosed = false ∧
      ms.Stream.id ∈ (w.openStream L).2.Session.streams) ∧
    (∀ (w : muxSession) (st : Stream), w.Session.IsClosed = false → st.id ∈ w.Session.streams →
      (w.Session.NumStreams = 1 →
        (muxStream.Close { Stream := st, onClose := muxSession.tryCloseOnIdle } w).2.Session.IsClosed
          = true) ∧
      (w.Session.NumStreams > 1 →
        (muxStream.Close { Stream := st, onClose := muxSession.tryCloseOnIdle } w).2.Session.IsClosed
          = false ∧
        (muxStream.Close { Stream := st, onClose := muxSession.tryCloseOnIdle } w).2.Session.NumStreams
          = w.Session.NumStreams - 1)) := by
  refine ⟨?_, fun stream s h => (Stream.Close_open stream s h).1, ?_, ?_⟩
  · intro stream h
    obtain ⟨s0, h0, hm⟩ := returned_stream_in_pool p muxMaxStream d hnd stream h
    have hk := OpenStream_ok s0 stream h0
    have hc := Stream.Close_open stream s0.OpenStream.2 hk.2.2.1
    refine ⟨_, hm, by rw [Session.OpenStream_id, hk.1], hk.2.2.1, hk.2.1, ?_, hc.1,
      hc.2.2 hk.2.1, hc.2.1⟩
    unfold smuxSessPool.closeStream
    simp only [List.mem_map]
    exact ⟨_, hm, by simp [Session.OpenStream_id, hk.1]⟩
  · intro w L ms h
    unfold muxSession.openStream at h ⊢
    split at h
    · simp at h
    · rename_i hlt
      rw [if_neg hlt]
      rcases hop : w.Session.OpenStream with ⟨r, t⟩
      rw [hop] at h
      cases r with
      | error e => simp at h
      | ok v =>
        have hk := OpenStream_ok w.Session v (by rw [hop])
        rw [hop] at hk
        simp only [Except.ok.injEq] at h
        subst h
        exact ⟨rfl, hk.2.2.1, hk.2.1⟩
  · intro w st hopen hlive
    have hc := Stream.Close_open st w.Session hopen
    have hn := hc.2.2 hlive
    simp only [muxStream.Close]
    have hT := tryCloseOnIdle_idle_iff { w with Session := (st.Close w.Session).2 }
    simp only at hT
    constructor
    · intro h1
      exact hT.1 (by rw [hn, h1]; rfl)
    · intro h1
      have := hT.2 (by rw [hn]; omega)
      exact ⟨by rw [this.1]; exact hc.1, by rw [this.2, hn]⟩

/-- C7, at a concrete pool with limit 1: the stream lands on session 4, which
stays open when the stream is closed. -/
theorem session_after_stream_close_witness :
    (poolIds examplePool.pool).Nodup ∧
    ∃ s ∈ (examplePool.getStream 1 (.connErr .ErrClosedPipe)).2.pool,
      s.id = 4 ∧ s.IsClosed = false ∧ (Stream.Close ⟨4, 3⟩ s).2.IsClosed = false :=
  ⟨by decide,
    let ⟨s, hs, h1, h2, _, _, h5, _, _⟩ :=
      (session_after_stream_close examplePool 1 (.connErr .ErrClosedPipe) (by decide)).1
        ⟨4, 3⟩ rfl
    ⟨s, hs, h1, h2, h5⟩⟩

/-! ### local.go: the idle reaper -/

theorem reaperTick_idle (lb now : Int) (s : Session) (h0 : s.NumStreams = 0) :
    reaperTick lb now s =
      if now - lb > muxSessIdleTimeout then (.exited, s.Close.2) else (.running lb, s) := by
  unfold reaperTick
  simp [h0]

theorem reaperTick_busy (lb now : Int) (s : Session) (h0 : s.NumStreams ≠ 0) :
    reaperTick lb now s = (.running now, s) := by
  have hnn := Session.NumStreams_nonneg s
  have hpos : s.NumStreams > 0 := by omega
  unfold reaperTick
  rw [if_pos hpos]

theorem Session.Close_IsClosed (s : Session) : s.Close.2.IsClosed = true := by
  unfold Session.Close Session.IsClosed
  cases hc : s.closed <;> simp [hc]

theorem reaperLoop_head_closed (tick : Nat → Int) (env : Nat → Session → Session)
    (fuel k : Nat) (lb : Int) (s : Session) (h : s.IsClosed = true) :
    reaperLoop tick env (fuel + 1) k lb s = .foundClosed k s := by
  unfold reaperLoop
  rw [if_pos h]

theorem reaperLoop_pass_busy (tick : Nat → Int) (env : Nat → Session → Session)
    (fuel k : Nat) (lb : Int) (s : Session) (h : s.IsClosed = false)
    (hb : (env k s).NumStreams ≠ 0) :
    reaperLoop tick env (fuel + 1) k lb s = reaperLoop tick env fuel (k + 1) (tick k) (env k s) := by
  conv_lhs => unfold reaperLoop
  rw [if_neg (by simp [h]), reaperTick_busy _ _ _ hb]

theorem reaperLoop_pass_expired (tick : Nat → Int) (env : Nat → Session → Session)
    (fuel k : Nat) (lb : Int) (s : Session) (h : s.IsClosed = false)
    (hi : (env k s).NumStreams = 0) (hx : tick k - lb > muxSessIdleTimeout) :
    reaperLoop tick env (fuel + 1) k lb s = .closedAt k (env k s).Close.2 := by
  unfold reaperLoop
  rw [if_neg (by simp [h]), reaperTick_idle _ _ _ hi, if_pos hx]

theorem reaperLoop_pass_idle (tick : Nat → Int) (env : Nat → Session → Session)
    (fuel k : Nat) (lb : Int) (s : Session) (h : s.IsClosed = false)
    (hi : (env k s).NumStreams = 0) (hx : ¬ tick k - lb > muxSessIdleTimeout) :
    reaperLoop tick env (fuel + 1) k lb s = reaperLoop tick env fuel (k + 1) lb (env k s) := by
  conv_lhs => unfold reaperLoop
  rw [if_neg (by simp [h]), reaperTick_idle _ _ _ hi, if_neg hx]

theorem reaperLoop_resume (tick : Nat → Int) (env : Nat → Session → Session) :
    ∀ (f1 f2 k : Nat) (lb : Int) (s : Session) (k1 : Nat) (lb1 : Int) (s1 : Session),
      reaperLoop tick env f1 k lb s = .waiting k1 lb1 s1 →
      reaperLoop tick env (f1 + f2) k lb s = reaperLoop tick env f2 k1 lb1 s1 := by
  intro f1
  induction f1 with
  | zero =>
    intro f2 k lb s k1 lb1 s1 h
    simp only [reaperLoop, ReaperRun.waiting.injEq] at h
    obtain ⟨rfl, rfl, rfl⟩ := h
    rw [Nat.zero_add]
  | succ f ih =>
    intro f2 k lb s k1 lb1 s1 h
    rw [show f + 1 + f2 = (f + f2) + 1 by omega]
    unfold reaperLoop at h
    conv_lhs => unfold reaperLoop
    split at h
    · exact ReaperRun.noConfusion h
    · rename_i hc
      rw [if_neg hc]
      rcases ht : reaperTick lb (tick k) (env k s) with ⟨r, t⟩
      rw [ht] at h
      cases r with
      | running lb2 => exact ih f2 (k + 1) lb2 t k1 lb1 s1 h
      | exited => exact ReaperRun.noConfusion h

theorem envRun_add (env : Nat → Session → Session) :
    ∀ (b i j : Nat) (s : Session),
      envRun env i (j + b) (envRun env b j s) = envRun env (b + i) j s := by
  intro b
  induction b with
  | zero =>
    intro i j s
    rw [Nat.zero_add]
    rfl
  | succ b ih =>
    intro i j s
    rw [show b + 1 + i = (b + i) + 1 by omega, show j + (b + 1) = j + 1 + b by omega]
    exact ih i (j + 1) (env j s)

theorem lastBusyAfter_succ (tick : Nat → Int) (k : Nat) (L : Int) (b : Nat) :
    lastBusyAfter tick (k + 1) (tick k) b = lastBusyAfter tick k L (b + 1) := by
  unfold lastBusyAfter
  cases b with
  | zero => simp
  | succ b =>
    simp only [Nat.add_one_ne_zero, if_false]
    congr 1
    omega

theorem reaperLoop_busy (tick : Nat → Int) (env : Nat → Session → Session) :
    ∀ (b k : Nat) (L : Int) (s : Session) (f : Nat),
      (∀ m, m < b → (envRun env m k s).IsClosed = false) →
      (∀ m, m < b → (envRun env (m + 1) k s).NumStreams ≠ 0) →
      reaperLoop tick env (b + f) k L s =
        reaperLoop tick env f (k + b) (lastBusyAfter tick k L b) (envRun env b k s) := by
  intro b
  induction b with
  | zero =>
    intro k L s f _ _
    rw [Nat.zero_add]
    rfl
  | succ b ih =>
    intro k L s f hopen hbusy
    have h0 : s.IsClosed = false := hopen 0 (by omega)
    have hb0 : (env k s).NumStreams ≠ 0 := hbusy 0 (by omega)
    rw [show b + 1 + f = (b + f) + 1 by omega, reaperLoop_pass_busy tick env _ k L s h0 hb0,
      ih (k + 1) (tick k) (env k s) f
        (fun m hm => hopen (m + 1) (by omega)) (fun m hm => hbusy (m + 1) (by omega)),
      lastBusyAfter_succ tick k L b, show k + 1 + b = k + (b + 1) by omega]
    rfl

theorem reaperLoop_idle_closes (tick : Nat → Int) (env : Nat → Session → Session) (L : Int) :
    ∀ (m j : Nat) (s : Session),
      (∀ i, i ≤ m → (envRun env i j s).IsClosed = false) →
      (∀ i, i ≤ m → (envRun env (i + 1) j s).NumStreams = 0) →
      (∀ i, j ≤ i → i < j + m → ¬ tick i - L > muxSessIdleTimeout) →
      tick (j + m) - L > muxSessIdleTimeout →
      ∀ fuel, m < fuel →
        reaperLoop tick env fuel j L s = .closedAt (j + m) (envRun env (m + 1) j s).Close.2 := by
  intro m
  induction m with
  | zero =>
    intro j s hopen hidle _ hex fuel hf
    obtain ⟨f, rfl⟩ : ∃ f, fuel = f + 1 := ⟨fuel - 1, by omega⟩
    exact reaperLoop_pass_expired tick env f j L s (hopen 0 (le_refl _)) (hidle 0 (le_refl _)) hex
  | succ m ih =>
    intro j s hopen hidle hno hex fuel hf
    obtain ⟨f, rfl⟩ : ∃ f, fuel = f + 1 := ⟨fuel - 1, by omega⟩
    rw [reaperLoop_pass_idle tick env f j L s (hopen 0 (by omega)) (hidle 0 (by omega))
      (hno j (le_refl _) (by omega))]
    have e : j + (m + 1) = j + 1 + m := by omega
    rw [e]
    exact ih (j + 1) (env j s)
      (fun i hi => hopen (i + 1) (by omega)) (fun i hi => hidle (i + 1) (by omega))
      (fun i h1 h2 => hno i (by omega) (by omega)) (by rw [← e]; exact hex) f (by omega)

theorem reaperLoop_idle_waits (tick : Nat → Int) (env : Nat → Session → Session) (L : Int) :
    ∀ (fuel j : Nat) (s : Session),
      (∀ i, i < fuel → (envRun env i j s).IsClosed = false) →
      (∀ i, i < fuel → (envRun env (i + 1) j s).NumStreams = 0) →
      (∀ i, j ≤ i → i < j + fuel → ¬ tick i - L > muxSessIdleTimeout) →
      reaperLoop tick env fuel j L s = .waiting (j + fuel) L (envRun env fuel j s) := by
  intro fuel
  induction fuel with
  | zero =>
    intro j s _ _ _
    rfl
  | succ f ih =>
    intro j s hopen hidle hno
    rw [reaperLoop_pass_idle tick env f j L s (hopen 0 (by omega)) (hidle 0 (by omega))
      (hno j (le_refl _) (by omega)),
      ih (j + 1) (env j s)
        (fun i hi => hopen (i + 1) (by omega)) (fun i hi => hidle (i + 1) (by omega))
        (fun i h1 h2 => hno i (by omega) (by omega)),
      show j + 1 + f = j + (f + 1) by omega]
    rfl

/-- C8: the idle reaper. The tick body: at a tick that finds a non-zero stream
count (so an open session) the reaper sets `lastBusy` to the tick time and
leaves the session as it is; at a tick that finds a zero count it closes the
session and exits when the tick time minus `lastBusy` is strictly more than the
idle timeout, and otherwise goes on with `lastBusy` and the session unchanged.
The check interval and the idle timeout add up to 32 s. The loop, from any
state: a session found closed at the head of the loop ends the loop with no
further action; a busy tick carries the tick time on as `lastBusy`; an idle tick
past the timeout closes the session and ends the loop; an idle tick within the
timeout carries `lastBusy` on unchanged; a loop that is still waiting goes on
from where it stands. Consequently, with ticks one check interval apart, a
session that nobody else closes, busy at the first `b` ticks from tick `k0` and
idle at every later tick (when `b = 0`: tick `k0` at most one check interval
after the initial `lastBusy`): the loop closes the session at tick `k`, the
first tick after the busy ones that is more than the idle timeout after the
last busy tick (after the initial `lastBusy` when `b = 0`); that tick is no
later than 32 s after it, and exactly 32 s after it, 16 ticks on, when
`b > 0`; every amount of fuel that reaches tick `k` gives this result, and with
less fuel the loop is still waiting, the session not closed by it. -/
theorem reaper_contract (tick : Nat → Int) (env : Nat → Session → Session) (k0 : Nat)
    (lastBusy : Int) (sess : Session) (b : Nat)
    (hticks : ∀ k : Nat, tick k = tick 0 + k * muxCheckIdleInterval)
    (hnext : b = 0 → tick k0 ≤ lastBusy + muxCheckIdleInterval)
    (hopen : ∀ m, (envRun env m k0 sess).IsClosed = false)
    (hbusy : ∀ m, m < b → (envRun env (m + 1) k0 sess).NumStreams ≠ 0)
    (hidle : ∀ m, b ≤ m → (envRun env (m + 1) k0 sess).NumStreams = 0) :
    (∀ lb now s, s.NumStreams ≠ 0 →
      s.IsClosed = false ∧ reaperTick lb now s = (.running now, s)) ∧
    (∀ lb now s, s.NumStreams = 0 →
      (now - lb > muxSessIdleTimeout →
        reaperTick lb now s = (.exited, s.Close.2) ∧ s.Close.2.IsClosed = true) ∧
      (¬ now - lb > muxSessIdleTimeout → reaperTick lb now s = (.running lb, s))) ∧
    muxCheckIdleInterval + muxSessIdleTimeout = 1000000000 * 32 ∧
    (∀ fuel k lb s, s.IsClosed = true →
      reaperLoop tick env (fuel + 1) k lb s = .foundClosed k s) ∧
    (∀ fuel k lb s, s.IsClosed = false → (env k s).NumStreams ≠ 0 →
      reaperLoop tick env (fuel + 1) k lb s =
        reaperLoop tick env fuel (k + 1) (tick k) (env k s)) ∧
    (∀ fuel k lb s, s.IsClosed = false → (env k s).NumStreams = 0 →
      tick k - lb > muxSessIdleTimeout →
      reaperLoop tick env (fuel + 1) k lb s = .closedAt k (env k s).Close.2) ∧
    (∀ fuel k lb s, s.IsClosed = false → (env k s).NumStreams = 0 →
      ¬ tick k - lb > muxSessIdleTimeout →
      reaperLoop tick env (fuel + 1) k lb s = reaperLoop tick env fuel (k + 1) lb (env k s)) ∧
    (∀ f1 f2 k lb s k1 lb1 s1, reaperLoop tick env f1 k lb s = .waiting k1 lb1 s1 →
      reaperLoop tick env (f1 + f2) k lb s = reaperLoop tick env f2 k1 lb1 s1) ∧
    ∃ k, k0 + b ≤ k ∧
      tick k - lastBusyAfter tick k0 lastBusy b > muxSessIdleTimeout ∧
      (∀ j, k0 + b ≤ j → j < k →
        ¬ tick j - lastBusyAfter tick k0 lastBusy b > muxSessIdleTimeout) ∧
      tick k ≤ lastBusyAfter tick k0 lastBusy b + muxCheckIdleInterval + muxSessIdleTimeout ∧
      (0 < b →
        lastBusyAfter tick k0 lastBusy b = tick (k0 + b - 1) ∧
        k = k0 + b + 15 ∧
        tick k = tick (k0 + b - 1) + muxCheckIdleInterval + muxSessIdleTimeout) ∧
      (envRun env (k - k0 + 1) k0 sess).Close.2.IsClosed = true ∧
      (∀ fuel, k - k0 < fuel →
        reaperLoop tick env fuel k0 lastBusy sess =
          .closedAt k (envRun env (k - k0 + 1) k0 sess).Close.2) ∧
      (∀ fuel, fuel ≤ k - k0 →
        reaperLoop tick env fuel k0 lastBusy sess =
          .waiting (k0 + fuel) (lastBusyAfter tick k0 lastBusy (min fuel b))
            (envRun env fuel k0 sess) ∧
        (envRun env fuel k0 sess).IsClosed = false) := by
  refine ⟨?_, ?_, ?_, reaperLoop_head_closed tick env, reaperLoop_pass_busy tick env,
    reaperLoop_pass_expired tick env, reaperLoop_pass_idle tick env,
    reaperLoop_resume tick env, ?_⟩
  · intro lb now s h0
    refine ⟨?_, reaperTick_busy lb now s h0⟩
    unfold Session.NumStreams at h0
    unfold Session.IsClosed
    cases hc : s.closed
    · rfl
    · simp [hc] at h0
  · intro lb now s h0
    rw [reaperTick_idle lb now s h0]
    constructor
    · intro h
      rw [if_pos h]
      exact ⟨rfl, Session.Close_IsClosed s⟩
    · intro h
      rw [if_neg h]
  · unfold muxCheckIdleInterval muxSessIdleTimeout
    norm_num
  · have hI : muxCheckIdleInterval = 2000000000 := by unfold muxCheckIdleInterval; norm_num
    have hT : muxSessIdleTimeout = 30000000000 := by unfold muxSessIdleTimeout; norm_num
    have hstep : ∀ a c : Nat, tick (a + c) = tick a + c * 2000000000 := by
      intro a c
      rw [hticks (a + c), hticks a, hI]
      push_cast
      ring
    have hLb : 0 < b → lastBusyAfter tick k0 lastBusy b = tick (k0 + b - 1) := by
      intro hb
      unfold lastBusyAfter
      rw [if_neg (by omega)]
    have hnext1 : tick (k0 + b) ≤ lastBusyAfter tick k0 lastBusy b + 2000000000 := by
      rcases Nat.eq_zero_or_pos b with hb | hb
      · subst hb
        have := hnext rfl
        rw [hI] at this
        simpa [lastBusyAfter] using this
      · rw [hLb hb]
        have h1 := hstep (k0 + b - 1) 1
        rw [show k0 + b - 1 + 1 = k0 + b by omega] at h1
        push_cast at h1
        omega
    generalize hLdef : lastBusyAfter tick k0 lastBusy b = Lb at hLb hnext1
    have hex : ∃ m : Nat, tick (k0 + b + m) - Lb > muxSessIdleTimeout := by
      refine ⟨(Lb + muxSessIdleTimeout - tick (k0 + b)).toNat + 1, ?_⟩
      rw [hstep, hT]
      push_cast
      omega
    have hm := Nat.find_spec hex
    have hmin : ∀ i, i < Nat.find hex → ¬ tick (k0 + b + i) - Lb > muxSessIdleTimeout :=
      fun i hi => Nat.find_min hex hi
    generalize Nat.find hex = m at hm hmin
    have hopen1 : ∀ i, (envRun env i (k0 + b) (envRun env b k0 sess)).IsClosed = false := by
      intro i
      rw [envRun_add]
      exact hopen (b + i)
    have hidle1 : ∀ i, (envRun env (i + 1) (k0 + b) (envRun env b k0 sess)).NumStreams = 0 := by
      intro i
      rw [envRun_add]
      exact hidle (b + i) (by omega)
    have hno : ∀ i, k0 + b ≤ i → i < k0 + b + m → ¬ tick i - Lb > muxSessIdleTimeout := by
      intro i h1 h2
      have := hmin (i - (k0 + b)) (by omega)
      rwa [show k0 + b + (i - (k0 + b)) = i by omega] at this
    refine ⟨k0 + b + m, by omega, hm, hno, ?_, ?_, Session.Close_IsClosed _, ?_, ?_⟩
    · rw [hI, hT]
      cases m with
      | zero =>
        simp only [Nat.add_zero]
        omega
      | succ m =>
        have h1 := hmin m (by omega)
        have h2 := hstep (k0 + b + m) 1
        rw [hT] at h1
        rw [show k0 + b + (m + 1) = k0 + b + m + 1 by omega]
        push_cast at h2
        omega
    · intro hb
      have hL := hLb hb
      have h1 := hstep (k0 + b - 1) (m + 1)
      rw [show k0 + b - 1 + (m + 1) = k0 + b + m by omega] at h1
      push_cast at h1
      rw [hT, hL] at hm
      have hm15 : m = 15 := by
        cases m with
        | zero => omega
        | succ m =>
          have h2 := hmin m (by omega)
          have h3 := hstep (k0 + b - 1) (m + 1)
          rw [show k0 + b - 1 + (m + 1) = k0 + b + m by omega] at h3
          push_cast at h3
          rw [hT, hL] at h2
          omega
      subst hm15
      refine ⟨hL, rfl, ?_⟩
      rw [hI, hT]
      omega
    · intro fuel hf
      obtain ⟨f, rfl⟩ : ∃ f, fuel = b + f := ⟨fuel - b, by omega⟩
      rw [reaperLoop_busy tick env b k0 lastBusy sess f (fun i _ => hopen i)
        (fun i hi => hbusy i hi), hLdef,
        reaperLoop_idle_closes tick env Lb m (k0 + b) _ (fun i _ => hopen1 i)
          (fun i _ => hidle1 i) hno hm f (by omega),
        envRun_add, show k0 + b + m - k0 + 1 = b + (m + 1) by omega]
    · intro fuel hf
      refine ⟨?_, hopen fuel⟩
      by_cases hfb : fuel ≤ b
      · have h1 := reaperLoop_busy tick env fuel k0 lastBusy sess 0 (fun i _ => hopen i)
          (fun i hi => hbusy i (by omega))
        rw [Nat.add_zero] at h1
        rw [h1, Nat.min_eq_left hfb]
        rfl
      · obtain ⟨f, rfl⟩ : ∃ f, fuel = b + f := ⟨fuel - b, by omega⟩
        rw [reaperLoop_busy tick env b k0 lastBusy sess f (fun i _ => hopen i)
          (fun i hi => hbusy i hi), hLdef,
          reaperLoop_idle_waits tick env Lb f (k0 + b) _ (fun i _ => hopen1 i)
            (fun i _ => hidle1 i) (fun i h1 h2 => hno i h1 (by omega)),
          envRun_add, Nat.min_eq_right (by omega), hLdef,
          show k0 + b + f = k0 + (b + f) by omega]

theorem envRun_quiet (m j : Nat) (s : Session) : envRun exampleQuietEnv m j s = s := by
  induction m generalizing j with
  | zero => rfl
  | succ m ih => exact ih (j + 1)

theorem envRun_busy_closed (m j : Nat) (s : Session) :
    (envRun exampleBusyEnv m j s).closed = s.closed := by
  induction m generalizing j s with
  | zero => rfl
  | succ m ih =>
    have h := ih (j + 1) (exampleBusyEnv j s)
    have e : (exampleBusyEnv j s).closed = s.closed := by
      unfold exampleBusyEnv
      split <;> rfl
    rw [e] at h
    exact h

theorem envRun_busy_streams (m j : Nat) (s : Session) :
    (envRun exampleBusyEnv (m + 1) j s).streams = if j + m ≤ 19 then [3] else [] := by
  induction m generalizing j s with
  | zero =>
    show (exampleBusyEnv j s).streams = _
    unfold exampleBusyEnv
    split <;> simp_all
  | succ m ih =>
    have h := ih (j + 1) (exampleBusyEnv j s)
    rw [show j + 1 + m = j + (m + 1) by omega] at h
    exact h

/-- C8, at two concrete runs of a ticker started at time 0 together with
`lastBusy`, on a new session. With a stream open at every tick up to tick 19
(40 s) and none later, the loop is still waiting before tick 35 with `lastBusy`
at 40 s, and closes the session at tick 35, which comes at 72 s. With the
session left alone and idle throughout, the loop closes it at tick 15, which
comes at 32 s. -/
theorem reaper_contract_witness :
    exampleTick 0 ≤ 0 + muxCheckIdleInterval ∧
    (freshSession 0).IsClosed = false ∧
    reaperLoop exampleTick exampleBusyEnv 36 0 0 (freshSession 0)
      = .closedAt 35 (envRun exampleBusyEnv 36 0 (freshSession 0)).Close.2 ∧
    reaperLoop exampleTick exampleBusyEnv 35 0 0 (freshSession 0)
      = .waiting 35 (exampleTick 19) (envRun exampleBusyEnv 35 0 (freshSession 0)) ∧
    reaperLoop exampleTick exampleQuietEnv 16 0 0 (freshSession 0)
      = .closedAt 15 (envRun exampleQuietEnv 16 0 (freshSession 0)).Close.2 ∧
    (envRun exampleBusyEnv 36 0 (freshSession 0)).Close.2
      = { freshSession 0 with closed := true, calls := [Call.Close] } ∧
    (envRun exampleQuietEnv 16 0 (freshSession 0)).Close.2
      = { freshSession 0 with closed := true, calls := [Call.Close] } ∧
    exampleTick 19 = 1000000000 * 40 ∧
    exampleTick 35 = 1000000000 * 72 ∧
    exampleTick 15 = 1000000000 * 32 := by
  have hticks : ∀ k : Nat, exampleTick k = exampleTick 0 + k * muxCheckIdleInterval :=
    fun k => by unfold exampleTick; push_cast; ring
  have hB := (reaper_contract exampleTick exampleBusyEnv 0 0 (freshSession 0) 20 hticks
    (fun h => absurd h (by decide))
    (fun m => by unfold Session.IsClosed; rw [envRun_busy_closed]; rfl)
    (fun m hm => by
      simp only [Session.NumStreams, envRun_busy_closed, envRun_busy_streams, freshSession,
        Nat.zero_add, Bool.false_eq_true, if_false]
      rw [if_pos (by omega)]
      decide)
    (fun m hm => by
      simp only [Session.NumStreams, envRun_busy_closed, envRun_busy_streams, freshSession,
        Nat.zero_add, Bool.false_eq_true, if_false]
      rw [if_neg (by omega)]
      rfl)
    ).2.2.2.2.2.2.2.2
  have hQ := (reaper_contract exampleTick exampleQuietEnv 0 0 (freshSession 0) 0 hticks
    (fun _ => by decide)
    (fun m => by rw [envRun_quiet]; rfl)
    (fun m hm => absurd hm (by omega))
    (fun m _ => by rw [envRun_quiet]; rfl)).2.2.2.2.2.2.2.2
  obtain ⟨k, _, _, _, _, hk, _, hclose, hwait⟩ := hB
  obtain ⟨_, hk35, _⟩ := hk (by decide)
  subst hk35
  obtain ⟨q, _, hq1, hq2, _, _, _, hqclose, _⟩ := hQ
  have hq15 : q = 15 := by
    simp only [exampleTick, muxCheckIdleInterval, muxSessIdleTimeout, lastBusyAfter,
      if_true] at hq1 hq2
    by_contra hne
    rcases Nat.lt_or_gt_of_ne hne with hlt | hgt
    · omega
    · have := hq2 15 (by omega) hgt
      norm_num at this
  subst hq15
  exact ⟨by decide, rfl, hclose 36 (by decide), (hwait 35 (by decide)).1,
    hqclose 16 (by decide), by decide, by decide, by decide, by decide, by decide⟩

/-! ### local.go: runs of `getStream` -/

theorem open_fits (c : Nat) (s : Session) (hc : s.closed = false) (ho : s.openErr = none) :
    s.fits (c : Int) = decide (s.streams.length < c) := by
  unfold Session.fits Session.IsClosed Session.NumStreams Session.OpenStream
  simp [hc, ho, Except.isOk, Except.toBool]

theorem open_saturated (c : Nat) (s : Session) (hc : s.closed = false) :
    s.saturated (c : Int) = decide (c ≤ s.streams.length) := by
  unfold Session.saturated Session.IsClosed Session.NumStreams
  simp only [hc, Bool.not_false, Bool.true_and, Bool.false_eq_true, if_false, Nat.cast_lt]
  by_cases h : s.streams.length < c
  · simp [h, Nat.not_le.mpr h]
  · simp [h, Nat.not_lt.mp h]

theorem open_OpenStream (s : Session) (hc : s.closed = false) (ho : s.openErr = none) :
    s.OpenStream.2.closed = false ∧ s.OpenStream.2.openErr = none ∧
    s.OpenStream.2.streams.length = s.streams.length + 1 ∧
    ∃ stream, s.OpenStream.1 = .ok stream := by
  unfold Session.OpenStream
  simp [hc, ho]

theorem streamTotal_append (l1 l2 : List Session) :
    streamTotal (l1 ++ l2) = streamTotal l1 + streamTotal l2 := by
  unfold streamTotal
  rw [List.map_append, List.sum_append]

theorem streamTotal_cons (a : Session) (l : List Session) :
    streamTotal (a :: l) = a.streams.length + streamTotal l := by
  unfold streamTotal
  rw [List.map_cons, List.sum_cons]

theorem streamTotal_full (c : Nat) (l : List Session) (h : ∀ s ∈ l, s.streams.length = c) :
    streamTotal l = c * l.length := by
  induction l with
  | nil => simp [streamTotal]
  | cons a l ih =>
    rw [streamTotal_cons, h a (List.mem_cons_self _ _),
      ih (fun s hs => h s (List.mem_cons_of_mem _ hs)), List.length_cons]
    ring

theorem streamTotal_le (c : Nat) (l : List Session) (h : ∀ s ∈ l, s.streams.length ≤ c) :
    streamTotal l ≤ c * l.length := by
  induction l with
  | nil => simp [streamTotal]
  | cons a l ih =>
    have h1 := h a (List.mem_cons_self _ _)
    have h2 := ih (fun s hs => h s (List.mem_cons_of_mem _ hs))
    rw [streamTotal_cons, List.length_cons, Nat.mul_succ]
    omega

theorem streamTotal_perm (l1 l2 : List Session) (h : l1.Perm l2) :
    streamTotal l1 = streamTotal l2 := by
  unfold streamTotal
  exact (h.map _).sum_eq

theorem good_not_fits (c : Nat) (s : Session) (hg : goodSession c s)
    (hf : s.fits (c : Int) = false) :
    s.streams.length = c ∧ s.saturated (c : Int) = true := by
  obtain ⟨h1, h2, _, h4⟩ := hg
  rw [open_fits c s h1 h2] at hf
  have hlt : ¬ s.streams.length < c := by simpa using hf
  have heq : s.streams.length = c := by omega
  refine ⟨heq, ?_⟩
  rw [open_saturated c s h1]
  simp [heq]

theorem getStream_step (c : Nat) (hc : 1 ≤ c) (q : List Session) (dials n : Nat)
    (hnd : (poolIds q).Nodup) (hid : ∀ s ∈ q, s.id < dials) (hlen : dials = q.length)
    (hgood : ∀ s ∈ q, goodSession c s) (htot : streamTotal q = n)
    (hceil : c * q.length + 1 ≤ n + c) :
    ∃ (stream : Stream) (q1 : List Session) (d1 : Nat),
      smuxSessPool.getStream { pool := q, dials := dials } (c : Int) (.ok (freshSession dials))
        = (.ok stream, { pool := q1, dials := d1 }) ∧
      (poolIds q1).Nodup ∧ (∀ s ∈ q1, s.id < d1) ∧ d1 = q1.length ∧
      (∀ s ∈ q1, goodSession c s) ∧ streamTotal q1 = n + 1 ∧
      c * q1.length + 1 ≤ n + 1 + c ∧
      (d1 = dials + 1 ↔ ∀ s ∈ q, s.streams.length = c) ∧ (d1 = dials ∨ d1 = dials + 1) := by
  rcases first_fit_split (c : Int) q with hno | ⟨pre, sess, post, hp, hno, hfit⟩
  · have hfull : ∀ s ∈ q, s.streams.length = c := fun s hs =>
      (good_not_fits c s (hgood s hs) (hno s hs)).1
    have hsat : q.filter (fun t => t.saturated (c : Int)) = q :=
      List.filter_eq_self.mpr (fun s hs => (good_not_fits c s (hgood s hs) (hno s hs)).2)
    have hfreshid : (freshSession dials).id ∉ poolIds q := by
      intro hm
      obtain ⟨t, ht, he⟩ := List.mem_map.mp hm
      have := hid t ht
      simp only [freshSession] at he
      omega
    obtain ⟨ho1, ho2, ho3, stream, hst⟩ := open_OpenStream (freshSession dials) rfl rfl
    have hR := getStream_of_no_fit { pool := q, dials := dials } (c : Int)
      (.ok (freshSession dials)) hnd hno
    simp only [hsat, poolDelete_of_not_mem _ _ hfreshid, hst] at hR
    refine ⟨stream, q ++ [(freshSession dials).OpenStream.2], dials + 1, hR, ?_, ?_, ?_, ?_, ?_,
      ?_, ?_, Or.inr rfl⟩
    · unfold poolIds
      rw [List.map_append, List.nodup_append]
      refine ⟨hnd, by simp, ?_⟩
      intro x hx1 hx2
      simp only [List.map_cons, List.map_nil, List.mem_singleton, Session.OpenStream_id] at hx2
      exact hfreshid (hx2 ▸ hx1)
    · intro s hs
      rcases List.mem_append.mp hs with hs | hs
      · have := hid s hs
        omega
      · rw [List.mem_singleton.mp hs, Session.OpenStream_id]
        simp [freshSession]
    · simp [hlen]
    · intro s hs
      rcases List.mem_append.mp hs with hs | hs
      · exact hgood s hs
      · rw [List.mem_singleton.mp hs]
        refine ⟨ho1, ho2, ?_, ?_⟩
        · rw [ho3]; omega
        · rw [ho3]; simp only [freshSession, List.length_nil]; omega
    · rw [streamTotal_append, streamTotal_cons, htot, ho3]
      simp [freshSession, streamTotal]
    · have ht := streamTotal_full c q hfull
      rw [List.length_append, List.length_singleton, Nat.mul_succ]
      omega
    · exact ⟨fun _ => hfull, fun _ => rfl⟩
  · have hsess : sess ∈ q := by rw [hp]; simp
    have hpre : ∀ t ∈ pre, t ∈ q := fun t ht => by rw [hp]; simp [ht]
    have hpost : ∀ t ∈ post, t ∈ q := fun t ht => by rw [hp]; simp [ht]
    obtain ⟨g1, g2, g3, g4⟩ := hgood sess hsess
    have hlt : sess.streams.length < c := by
      rw [open_fits c sess g1 g2] at hfit
      simpa using hfit
    have hsat : pre.filter (fun t => t.saturated (c : Int)) = pre :=
      List.filter_eq_self.mpr
        (fun s hs => (good_not_fits c s (hgood s (hpre s hs)) (hno s hs)).2)
    obtain ⟨ho1, ho2, ho3, stream, hst⟩ := open_OpenStream sess g1 g2
    have hR := getStream_of_first_fit { pool := q, dials := dials } (c : Int)
      (.ok (freshSession dials)) pre sess post hp hnd hno hfit
    simp only [hsat, hst] at hR
    have hids : poolIds (pre ++ sess.OpenStream.2 :: post) = poolIds q := by
      rw [hp]
      simp [poolIds, Session.OpenStream_id]
    have hlen1 : (pre ++ sess.OpenStream.2 :: post).length = q.length := by
      rw [hp]
      simp
    refine ⟨stream, pre ++ sess.OpenStream.2 :: post, dials, hR, ?_, ?_, ?_, ?_, ?_, ?_, ?_,
      Or.inl rfl⟩
    · rw [hids]; exact hnd
    · intro s hs
      rcases List.mem_append.mp hs with hs | hs
      · exact hid s (hpre s hs)
      · rcases List.mem_cons.mp hs with hs | hs
        · rw [hs, Session.OpenStream_id]; exact hid sess hsess
        · exact hid s (hpost s hs)
    · rw [hlen1]; exact hlen
    · intro s hs
      rcases List.mem_append.mp hs with hs | hs
      · exact hgood s (hpre s hs)
      · rcases List.mem_cons.mp hs with hs | hs
        · rw [hs]
          exact ⟨ho1, ho2, by rw [ho3]; omega, by rw [ho3]; omega⟩
        · exact hgood s (hpost s hs)
    · rw [streamTotal_append, streamTotal_cons, ho3]
      rw [hp, streamTotal_append, streamTotal_cons] at htot
      omega
    · rw [hlen1]; omega
    · constructor
      · intro h; omega
      · intro h
        have := h sess hsess
        omega

theorem getStreamN_inv (c : Nat) (hc : 1 ≤ c) (order : Nat → List Session → List Session)
    (hperm : ∀ k l, (order k l).Perm l) (n : Nat) :
    (poolIds (getStreamN (c : Int) order n).pool).Nodup ∧
    (∀ s ∈ (getStreamN (c : Int) order n).pool, s.id < (getStreamN (c : Int) order n).dials) ∧
    (getStreamN (c : Int) order n).dials = (getStreamN (c : Int) order n).pool.length ∧
    (∀ s ∈ (getStreamN (c : Int) order n).pool, goodSession c s) ∧
    streamTotal (getStreamN (c : Int) order n).pool = n ∧
    c * (getStreamN (c : Int) order n).pool.length + 1 ≤ n + c := by
  induction n with
  | zero =>
    simp only [getStreamN, defaultSessPool, poolIds, streamTotal]
    refine ⟨by simp, by simp, rfl, by simp, by simp, by simp; omega⟩
  | succ n ih =>
    obtain ⟨h1, h2, h3, h4, h5, h6⟩ := ih
    have hp := hperm n (getStreamN (c : Int) order n).pool
    have hq1 : (poolIds (order n (getStreamN (c : Int) order n).pool)).Nodup := by
      unfold poolIds at h1 ⊢
      exact (hp.map _).nodup_iff.mpr h1
    obtain ⟨stream, q1, d1, heq, r1, r2, r3, r4, r5, r6, _, _⟩ :=
      getStream_step c hc (order n (getStreamN (c : Int) order n).pool)
        (getStreamN (c : Int) order n).dials n hq1
        (fun s hs => h2 s (hp.mem_iff.mp hs))
        (by rw [hp.length_eq]; exact h3)
        (fun s hs => h4 s (hp.mem_iff.mp hs))
        (by rw [streamTotal_perm _ _ hp]; exact h5)
        (by rw [hp.length_eq]; exact h6)
    have hN : getStreamN (c : Int) order (n + 1) = { pool := q1, dials := d1 } := by
      simp only [getStreamN, heq]
    rw [hN]
    exact ⟨r1, r2, r3, r4, r5, r6⟩

theorem getStreamN_call (c : Nat) (hc : 1 ≤ c) (order : Nat → List Session → List Session)
    (hperm : ∀ k l, (order k l).Perm l) (n : Nat) :
    (∃ stream, getStreamNth (c : Int) order n = .ok stream) ∧
    ((getStreamN (c : Int) order (n + 1)).dials = (getStreamN (c : Int) order n).dials + 1 ↔
      ∀ s ∈ (getStreamN (c : Int) order n).pool, s.streams.length = c) ∧
    ((getStreamN (c : Int) order (n + 1)).dials = (getStreamN (c : Int) order n).dials ∨
      (getStreamN (c : Int) order (n + 1)).dials = (getStreamN (c : Int) order n).dials + 1) := by
  obtain ⟨h1, h2, h3, h4, h5, h6⟩ := getStreamN_inv c hc order hperm n
  have hp := hperm n (getStreamN (c : Int) order n).pool
  have hq1 : (poolIds (order n (getStreamN (c : Int) order n).pool)).Nodup := by
    unfold poolIds at h1 ⊢
    exact (hp.map _).nodup_iff.mpr h1
  obtain ⟨stream, q1, d1, heq, _, _, _, _, _, _, r7, r8⟩ :=
    getStream_step c hc (order n (getStreamN (c : Int) order n).pool)
      (getStreamN (c : Int) order n).dials n hq1
      (fun s hs => h2 s (hp.mem_iff.mp hs))
      (by rw [hp.length_eq]; exact h3)
      (fun s hs => h4 s (hp.mem_iff.mp hs))
      (by rw [streamTotal_perm _ _ hp]; exact h5)
      (by rw [hp.length_eq]; exact h6)
  have hN : getStreamN (c : Int) order (n + 1) = { pool := q1, dials := d1 } := by
    simp only [getStreamN, heq]
  have hS : getStreamNth (c : Int) order n = .ok stream := by
    simp only [getStreamNth, heq]
  rw [hN]
  refine ⟨⟨stream, hS⟩, ?_, r8⟩
  rw [r7]
  constructor
  · intro h s hs
    exact h s (hp.mem_iff.mpr hs)
  · intro h s hs
    exact h s (hp.mem_iff.mp hs)

theorem getStreamN_count (c : Nat) (hc : 1 ≤ c) (order : Nat → List Session → List Session)
    (hperm : ∀ k l, (order k l).Perm l) (n : Nat) :
    (getStreamN (c : Int) order n).pool.length = (n + c - 1) / c ∧
    (getStreamN (c : Int) order n).dials = (n + c - 1) / c := by
  obtain ⟨_, _, h3, h4, h5, h6⟩ := getStreamN_inv c hc order hperm n
  have hle := streamTotal_le c (getStreamN (c : Int) order n).pool (fun s hs => (h4 s hs).2.2.2)
  rw [h5] at hle
  have hlen : (n + c - 1) / c = (getStreamN (c : Int) order n).pool.length := by
    apply Nat.div_eq_of_lt_le
    · rw [Nat.mul_comm]; omega
    · rw [Nat.succ_mul, Nat.mul_comm]; omega
  rw [h3, ← hlen]
  exact ⟨rfl, rfl⟩

theorem good_NumStreams (c : Nat) (s : Session) (hg : goodSession c s) :
    s.IsClosed = false ∧ s.NumStreams = (s.streams.length : Int) := by
  unfold Session.IsClosed Session.NumStreams
  simp [hg.1]

/-- C9: `n` calls of `getStream` one after another from the empty pool, with a
stream cap `c` of at least 1, every dial and every open succeeding, nothing
closed in between, and the map presenting its keys in any order at each call.
The pool ends with exactly `⌈n / c⌉` sessions, which are the sessions dialed;
each is open and carries between 1 and `c` streams; every call returns a
stream; call `n + 1` dials a session if and only if every session of the pool
carries `c` streams at that call, and dials at most one. With `c = 2` the first
call dials session 1, the second call dials nothing, and the third call dials
session 2, so that 2 sessions exist after 3 calls. -/
theorem getStreamN_sessions (c : Nat) (hc : 1 ≤ c) (order : Nat → List Session → List Session)
    (hperm : ∀ k l, (order k l).Perm l) (n : Nat) :
    (getStreamN (c : Int) order n).pool.length = (n + c - 1) / c ∧
    (getStreamN (c : Int) order n).dials = (getStreamN (c : Int) order n).pool.length ∧
    (∀ s ∈ (getStreamN (c : Int) order n).pool,
      s.IsClosed = false ∧ 1 ≤ s.NumStreams ∧ s.NumStreams ≤ c) ∧
    (∃ stream, getStreamNth (c : Int) order n = .ok stream) ∧
    ((getStreamN (c : Int) order (n + 1)).dials = (getStreamN (c : Int) order n).dials + 1 ↔
      ∀ s ∈ (getStreamN (c : Int) order n).pool, s.NumStreams = c) ∧
    ((getStreamN (c : Int) order (n + 1)).dials = (getStreamN (c : Int) order n).dials ∨
      (getStreamN (c : Int) order (n + 1)).dials = (getStreamN (c : Int) order n).dials + 1) ∧
    (c = 2 →
      (getStreamN (c : Int) order 0).dials = 0 ∧
      (getStreamN (c : Int) order 1).dials = 1 ∧
      (getStreamN (c : Int) order 2).dials = 1 ∧
      (getStreamN (c : Int) order 3).dials = 2 ∧
      (getStreamN (c : Int) order 3).pool.length = 2) := by
  obtain ⟨_, _, h3, h4, _, _⟩ := getStreamN_inv c hc order hperm n
  obtain ⟨k1, k2, k3⟩ := getStreamN_call c hc order hperm n
  refine ⟨(getStreamN_count c hc order hperm n).1, h3, ?_, k1, ?_, k3, ?_⟩
  · intro s hs
    obtain ⟨g1, g2⟩ := good_NumStreams c s (h4 s hs)
    have hg := h4 s hs
    refine ⟨g1, ?_, ?_⟩
    · rw [g2]; exact_mod_cast hg.2.2.1
    · rw [g2]; exact_mod_cast hg.2.2.2
  · rw [k2]
    constructor
    · intro h s hs
      rw [(good_NumStreams c s (h4 s hs)).2, h s hs]
    · intro h s hs
      have := h s hs
      rw [(good_NumStreams c s (h4 s hs)).2] at this
      exact_mod_cast this
  · intro h2
    subst h2
    have e0 := getStreamN_count 2 hc order hperm 0
    have e1 := getStreamN_count 2 hc order hperm 1
    have e2 := getStreamN_count 2 hc order hperm 2
    have e3 := getStreamN_count 2 hc order hperm 3
    exact ⟨e0.2, e1.2, e2.2, e3.2, e3.1⟩

/-- C9, at a concrete run: cap 2, three calls, the map presenting its keys in
reverse each time. Two sessions exist at the end; the streams of the first two
calls are on the session dialed first, the stream of the third call is on the
session dialed second. -/
theorem getStreamN_sessions_witness :
    (1 ≤ 2) ∧
    (getStreamN 2 (fun _ l => l.reverse) 3).pool.length = 2 ∧
    (getStreamN 2 (fun _ l => l.reverse) 3).pool.map (fun s => (s.id, s.NumStreams))
      = [(0, 2), (1, 1)] ∧
    (getStreamNth 2 (fun _ l => l.reverse) 0).toOption = some ⟨0, 3⟩ ∧
    (getStreamNth 2 (fun _ l => l.reverse) 1).toOption = some ⟨0, 5⟩ ∧
    (getStreamNth 2 (fun _ l => l.reverse) 2).toOption = some ⟨1, 3⟩ :=
  ⟨by decide,
    (getStreamN_sessions 2 (by decide) (fun _ l => l.reverse)
      (fun _ l => List.reverse_perm l) 3).1,
    by decide, by decide, by decide, by decide⟩

end MosTlsTunnel
